import Mathlib

/-!
Shallow embedding of the formatting-code engine of the `xulbux` Python library
(`src/xulbux/format_codes.py`, together with the helpers it calls from
`base/consts.py`, `color.py`, `string.py` and `regex.py`).

Modelling conventions:
* Python strings are modelled as `List Char`.
* Python floats are modelled as exact rationals (`ℚ`); divergence from IEEE
  doubles is possible only at rounding boundaries, and every concrete input
  used in the theorems below stays away from such boundaries.
* Python code that can raise an exception is modelled with `Except String`;
  the exact error-message text is not reproduced.
* Python regular expressions are modelled by equivalent recursive scanners;
  where the original pattern uses `\s`, the whitespace class is modelled by
  the six ASCII whitespace characters (the inputs of all theorems below are
  ASCII).
* Recursion of the Python engine is modelled with an explicit fuel parameter
  (structural recursion, so that concrete runs reduce definitionally); the
  top-level entry points supply fuel that is large enough for their input,
  and fuel exhaustion returns the input unchanged.
-/

namespace Xulbux

/-- Whitespace characters stripped by Python `str.strip()` and matched by
regex `\s` (ASCII fragment). -/
def isPySpace (c : Char) : Bool :=
  c = ' ' || c = '\t' || c = '\n' || c = '\r' || c = Char.ofNat 11 || c = Char.ofNat 12

/-- Python `str.strip()` on a character list. -/
def pyStrip (cs : List Char) : List Char :=
  ((cs.dropWhile isPySpace).reverse.dropWhile isPySpace).reverse

/-- The ANSI escape character `ANSI.CHAR` (`"\x1b"`, `base/consts.py`). -/
def escCh : Char := Char.ofNat 27

/-- `ANSI.CHAR + ANSI.START`: the two characters every ANSI escape sequence
emitted by the engine starts with. -/
def ansiStart : List Char := [escCh, '[']

/-- Decimal digits of a natural number (used to render SGR parameters). -/
def natDigits (n : Nat) : List Char := Nat.toDigits 10 n

/-- `ANSI.seq(1)` applied to one SGR parameter: `ESC [ n m`. -/
def seq1 (n : Nat) : List Char := ansiStart ++ natDigits n ++ ['m']

/-- `ANSI.SEQ_COLOR`: `ESC [ 38;2;r;g;b m`. -/
def seqColor (r g b : Nat) : List Char :=
  ansiStart ++ "38;2;".data ++ natDigits r ++ [';'] ++ natDigits g ++ [';'] ++ natDigits b ++ ['m']

/-- `ANSI.SEQ_BG_COLOR`: `ESC [ 48;2;r;g;b m`. -/
def seqBgColor (r g b : Nat) : List Char :=
  ansiStart ++ "48;2;".data ++ natDigits r ++ [';'] ++ natDigits g ++ [';'] ++ natDigits b ++ ['m']

/-- `ANSI.COLOR_MAP` (`base/consts.py`): the eight standard color names. -/
def COLOR_MAP : List (List Char) :=
  ["black".data, "red".data, "green".data, "yellow".data,
   "blue".data, "magenta".data, "cyan".data, "white".data]

/-- `ANSI.CODES_MAP` (`base/consts.py`): alias groups with their SGR
parameter numbers, in the dictionary's insertion order. -/
def CODES_MAP : List (List (List Char) × Nat) :=
  [ (["_".data], 0),
    (["_bold".data, "_b".data], 22),
    (["_dim".data, "_d".data], 22),
    (["_italic".data, "_i".data], 23),
    (["_underline".data, "_u".data], 24),
    (["_double-underline".data, "_du".data], 24),
    (["_inverse".data, "_invert".data, "_in".data], 27),
    (["_hidden".data, "_hide".data, "_h".data], 28),
    (["_strikethrough".data, "_s".data], 29),
    (["_color".data, "_c".data], 39),
    (["_background".data, "_bg".data], 49),
    (["bold".data, "b".data], 1),
    (["dim".data, "d".data], 2),
    (["italic".data, "i".data], 3),
    (["underline".data, "u".data], 4),
    (["inverse".data, "invert".data, "in".data], 7),
    (["hidden".data, "hide".data, "h".data], 8),
    (["strikethrough".data, "s".data], 9),
    (["double-underline".data, "du".data], 21),
    (["black".data], 30), (["red".data], 31), (["green".data], 32),
    (["yellow".data], 33), (["blue".data], 34), (["magenta".data], 35),
    (["cyan".data], 36), (["white".data], 37),
    (["br:black".data], 90), (["br:red".data], 91), (["br:green".data], 92),
    (["br:yellow".data], 93), (["br:blue".data], 94), (["br:magenta".data], 95),
    (["br:cyan".data], 96), (["br:white".data], 97),
    (["bg:black".data], 40), (["bg:red".data], 41), (["bg:green".data], 42),
    (["bg:yellow".data], 43), (["bg:blue".data], 44), (["bg:magenta".data], 45),
    (["bg:cyan".data], 46), (["bg:white".data], 47),
    (["bg:br:black".data], 100), (["bg:br:red".data], 101), (["bg:br:green".data], 102),
    (["bg:br:yellow".data], 103), (["bg:br:blue".data], 104), (["bg:br:magenta".data], 105),
    (["bg:br:cyan".data], 106), (["bg:br:white".data], 107) ]

/-- First `CODES_MAP` entry whose alias group contains the key (the loop in
`FormatCodes._get_replacement` iterates the dictionary in insertion order and
returns on the first hit). -/
def lookupCode (k : List Char) : Option Nat :=
  (CODES_MAP.find? (fun e => e.1.any (fun s => s = k))).map (·.2)

/-- Alias strings of the `background` and `bright` key classes
(`_PREFIX` in `format_codes.py`). -/
def bgAliases : List (List Char) := ["background".data, "bg".data]

/-- Alias strings of the `bright` key class. -/
def brAliases : List (List Char) := ["bright".data, "br".data]

/-- `FormatCodes._normalize_key`: drop spaces, lowercase, split on `:`,
pull recognized `background`/`bright` alias parts out to a canonical
`bg:`/`br:` lead, keep the remaining parts joined by `:`. -/
def normalizeKey (k : List Char) : List Char :=
  let parts := ((k.filter (fun c => c ≠ ' ')).map Char.toLower).splitOn ':'
  let hasBG := parts.any (fun p => p ∈ bgAliases)
  let hasBR := parts.any (fun p => p ∈ brAliases)
  let lead := (if hasBG then "bg:".data else []) ++ (if hasBR then "br:".data else [])
  lead ++ List.intercalate [':']
    (parts.filter (fun p => ¬ (p ∈ bgAliases ∨ p ∈ brAliases)))

/-- `FormatCodes._formats_to_keys`: split a pipe-joined key list into
stripped, non-empty keys. -/
def formatsToKeys (formats : List Char) : List (List Char) :=
  ((formats.splitOn '|').map pyStrip).filter (fun k => k ≠ [])

end Xulbux

namespace Xulbux

/-- RGB color triple, as produced by `Color._parse_rgba` for a valid
3-tuple.  The alpha channel is omitted: it never influences any output of
the formatting engine (only `r`, `g`, `b` reach the emitted SGR codes). -/
structure Rgba where
  r : Nat
  g : Nat
  b : Nat
deriving DecidableEq, Repr

/-- Floor of a rational, computed with floor division so that the kernel
can evaluate it (`Int.floor` of `ℚ` does not reduce definitionally). -/
def ratFloor (q : ℚ) : ℤ := Int.fdiv q.num q.den

/-- Python `round()` (round half to even) on an exact rational. -/
def pyRound (q : ℚ) : ℤ :=
  let f : ℤ := ratFloor q
  let r : ℚ := q - f
  if r < 1/2 then f
  else if 1/2 < r then f + 1
  else if f % 2 = 0 then f else f + 1

/-- Python `int()` (truncation toward zero) on an exact rational. -/
def pyInt (q : ℚ) : ℤ := if 0 ≤ q then ratFloor q else -ratFloor (-q)

/-- Python float `%` for our exact rationals (`a - b * floor (a / b)`). -/
def qMod (a b : ℚ) : ℚ := a - b * ratFloor (a / b)

/-- `rgba._rgb_to_hsl` (`color.py`): RGB channels to rounded integer HSL. -/
def rgbToHsl (r g b : Nat) : ℤ × ℤ × ℤ :=
  let rq : ℚ := (r : ℚ) / 255
  let gq : ℚ := (g : ℚ) / 255
  let bq : ℚ := (b : ℚ) / 255
  let maxc := max rq (max gq bq)
  let minc := min rq (min gq bq)
  let l := (maxc + minc) / 2
  if maxc = minc then
    (0, 0, pyRound (l * 100))
  else
    let delta := maxc - minc
    let s := delta / (1 - |2 * l - 1|)
    let h0 : ℚ :=
      if maxc = rq then qMod ((gq - bq) / delta) 6
      else if maxc = gq then (bq - rq) / delta + 2
      else (rq - gq) / delta + 4
    (pyRound (h0 / 6 * 360), pyRound (s * 100), pyRound (l * 100))

/-- `hsla._hue_to_rgb` (`color.py`). -/
def hueToRgb (p q t0 : ℚ) : ℚ :=
  let t1 := if t0 < 0 then t0 + 1 else t0
  let t := if 1 < t1 then t1 - 1 else t1
  if t < 1/6 then p + (q - p) * 6 * t
  else if t < 1/2 then q
  else if t < 2/3 then p + (q - p) * (2/3 - t) * 6
  else p

/-- `hsla._hsl_to_rgb` (`color.py`): integer HSL to integer RGB. -/
def hslToRgb (h s l : ℤ) : ℤ × ℤ × ℤ :=
  let hq : ℚ := (h : ℚ) / 360
  let sq : ℚ := (s : ℚ) / 100
  let lq : ℚ := (l : ℚ) / 100
  if sq = 0 then
    let v := pyInt (lq * 255)
    (v, v, v)
  else
    let q := if lq < 1/2 then lq * (1 + sq) else lq + sq - lq * sq
    let p := 2 * lq - q
    (pyRound (hueToRgb p q (hq + 1/3) * 255),
     pyRound (hueToRgb p q hq * 255),
     pyRound (hueToRgb p q (hq - 1/3) * 255))

/-- The new integer lightness computed inside `Color.adjust_lightness`:
`int(max(0, min(100, l + lightness_change * 100)))`. -/
def adjustLightnessL (l : ℤ) (change : ℚ) : ℤ :=
  pyInt (max 0 (min 100 ((l : ℚ) + change * 100)))

/-- `Color.adjust_lightness` (`color.py`) restricted to `rgba` input, the
only form the formatting engine passes it.  Raises (models `ValueError`)
when the change lies outside `[-1, 1]`; otherwise converts to HSL, shifts
the clamped lightness channel and converts back to RGB.  The resulting
channels are nonnegative for in-range HSL values, so `Int.toNat` is exact. -/
def adjustLightness (c : Rgba) (change : ℚ) : Except String Rgba :=
  if -1 ≤ change ∧ change ≤ 1 then
    let hsl := rgbToHsl c.r c.g c.b
    let lNew := adjustLightnessL hsl.2.2 change
    let rgb := hslToRgb hsl.1 hsl.2.1 lNew
    .ok ⟨rgb.1.toNat, rgb.2.1.toNat, rgb.2.2.toNat⟩
  else
    .error "The 'lightness_change' parameter must be in range [-1.0, 1.0] inclusive"

/-- `String.single_char_repeats` (`string.py`) for a single-character
`char`: the length of `s` when it consists solely of `c`, else `0`. -/
def singleCharRepeats (s : List Char) (c : Char) : Nat :=
  if s.length = s.count c then s.count c else 0

/-- The modifier characters `_DEFAULT_COLOR_MODS` (`"+l"` lighten, `"-d"`
darken), in the order the resolution loop tries them. -/
def modChars : List Char := ['+', 'l', '-', 'd']

/-- Drop whitespace from the left (regex `\s*`). -/
def munchSp (cs : List Char) : List Char := cs.dropWhile isPySpace

/-- Match of `_PATTERNS.modifier` (`(?i)^((?:BG\s*:)?)\s*(\++|l+|\-+|d+)$`)
on a normalized key, combined with the `single_char_repeats` loop that
follows it in `_get_default_ansi`: returns the `bg:` flag, the repeated
modifier character and the run length. -/
def parseModifier (k : List Char) : Option (Bool × Char × Nat) :=
  let bgStripped : Option (List Char) :=
    match k with
    | c1 :: c2 :: t =>
      if c1 = 'b' ∧ c2 = 'g' then
        match munchSp t with
        | ':' :: tail => some tail
        | _ => none
      else none
    | _ => none
  let isBg := bgStripped.isSome
  let body := munchSp (bgStripped.getD k)
  match body with
  | [] => none
  | c :: _ =>
    if c ∈ modChars ∧ body.all (fun x => x = c) then some (isBg, c, body.length)
    else none

/-- Boolean substring test (non-overlapping occurrence anywhere). -/
def listInfix (p s : List Char) : Bool := s.tails.any (fun t => p.isPrefixOf t)

/-- Search of `_PATTERNS.bg_opt_default` inside a key: since both the
`bg:` part and the surrounding `\s*` of that pattern are optional, the
search succeeds exactly when `default` occurs as a substring. -/
def hasDefaultWord (k : List Char) : Bool := listInfix "default".data k

/-- Match of `(?:background|bg)\s*:\s*default` at one position. -/
def matchBgDefaultAt (t : List Char) : Bool :=
  let afterAlias : Option (List Char) :=
    if "background".data.isPrefixOf t then some (t.drop 10)
    else if "bg".data.isPrefixOf t then some (t.drop 2)
    else none
  match afterAlias with
  | none => false
  | some u =>
    match munchSp u with
    | ':' :: v => "default".data.isPrefixOf (munchSp v)
    | _ => false

/-- Search of `_PATTERNS.bg_default` anywhere inside a key. -/
def hasBgDefault (k : List Char) : Bool := k.tails.any matchBgDefaultAt

/-- `FormatCodes._get_default_ansi`.  `formatKey = none` models Python
`format_key=None` and `bs = none` models `brightness_steps=None`; an empty
key list is falsy like an empty Python string.  A lighten/darken modifier
of run length `n` applies `Color.adjust_lightness` with
`±(brightness_steps / 100) * n`, whose range check can raise. -/
def defaultColorAnsi (dc : Rgba) (formatKey : Option (List Char)) (bs : Option Nat) :
    Except String (Option (List Char)) :=
  let k := formatKey.getD []
  if bs = none ∨ (k ≠ [] ∧ hasDefaultWord k) then
    .ok (some ((if k ≠ [] ∧ hasBgDefault k then seqBgColor else seqColor) dc.r dc.g dc.b))
  else if formatKey = none then .ok none
  else
    match parseModifier k, bs with
    | none, _ => .ok none
    | _, none => .ok none
    | some (isBg, c, n), some bsv => do
      let change : ℚ :=
        if c = '+' ∨ c = 'l' then (bsv : ℚ) / 100 * n else -((bsv : ℚ) / 100 * n)
      let c' ← adjustLightness dc change
      .ok (some ((if isBg then seqBgColor else seqColor) c'.r c'.g c'.b))

end Xulbux

namespace Xulbux

/-- Decimal value of a digit run. -/
def digitsToNat (ds : List Char) : Nat :=
  ds.foldl (fun a c => a * 10 + (c.toNat - 48)) 0

/-- Hexadecimal digit test of `[0-9A-F]` under the regex `i` flag. -/
def isHexDig (c : Char) : Bool :=
  c.isDigit || ('a' ≤ c.toLower && c.toLower ≤ 'f')

/-- Value of one hexadecimal digit. -/
def hexVal (c : Char) : Nat :=
  if c.isDigit then c.toNat - 48 else c.toLower.toNat - 97 + 10

/-- Match of the `_PREFIX_RX["BG"]` fragment `(?:background|bg)\s*:` at the
start of a key (the `background` alternative is tried first; when it is a
prefix but no colon follows, the `bg` alternative cannot succeed either,
yet we model the regex backtracking faithfully with `orElse`). -/
def stripBgRx (cs : List Char) : Option (List Char) :=
  (if "background".data.isPrefixOf cs then
      match munchSp (cs.drop 10) with
      | ':' :: rest => some rest
      | _ => none
    else none).orElse (fun _ =>
    if "bg".data.isPrefixOf cs then
      match munchSp (cs.drop 2) with
      | ':' :: rest => some rest
      | _ => none
    else none)

/-- Parse `\d{1,3}` followed by a non-digit: a maximal digit run of length
one to three (a longer run cannot match, because the leftover digit never
matches the separator or terminator that follows in the pattern). -/
def parseNum3 (cs : List Char) : Option (Nat × List Char) :=
  let run := cs.takeWhile (·.isDigit)
  if run ≠ [] ∧ run.length ≤ 3 then some (digitsToNat run, cs.drop run.length)
  else none

/-- Parse the `\s*,\s*` separator of `_PATTERNS.rgb`. -/
def expectComma (cs : List Char) : Option (List Char) :=
  match munchSp cs with
  | ',' :: rest => some (munchSp rest)
  | _ => none

/-- Match of `_PATTERNS.rgb` (`(?i)^\s*((?:background|bg)\s*:)?\s*(?:rgb|rgba)?
\s*\(?\s*(\d{1,3})\s*,\s*(\d{1,3})\s*,\s*(\d{1,3})\s*\)?\s*$`) against a
normalized (lowercase) key: background flag plus the three parsed numbers. -/
def parseRgbKey (k : List Char) : Option (Bool × Nat × Nat × Nat) := do
  let s0 := munchSp k
  let (isBg, s1) :=
    match stripBgRx s0 with
    | some rest => (true, rest)
    | none => (false, s0)
  let s2 := munchSp s1
  let s3 := if "rgba".data.isPrefixOf s2 then s2.drop 4
            else if "rgb".data.isPrefixOf s2 then s2.drop 3 else s2
  let s4 := munchSp s3
  let s5 := match s4 with | '(' :: rest => rest | _ => s4
  let (r, s7) ← parseNum3 (munchSp s5)
  let s8 ← expectComma s7
  let (g, s9) ← parseNum3 s8
  let s10 ← expectComma s9
  let (b, s11) ← parseNum3 s10
  let s12 := munchSp s11
  let s13 := match s12 with | ')' :: rest => rest | _ => s12
  if munchSp s13 = [] then some (isBg, r, g, b) else none

/-- Match of `_PATTERNS.hex` (`(?i)^\s*((?:background|bg)\s*:)?\s*(?:#|0x)?
([0-9A-F]{6}|[0-9A-F]{3})\s*$`) against a normalized key, combined with the
`hexa` string constructor of `color.py` (three-digit shorthand doubles each
digit): background flag plus the decoded RGB channels. -/
def parseHexKey (k : List Char) : Option (Bool × Nat × Nat × Nat) :=
  let s0 := munchSp k
  let (isBg, s1) :=
    match stripBgRx s0 with
    | some rest => (true, rest)
    | none => (false, s0)
  let s2 := munchSp s1
  let s3 := if "0x".data.isPrefixOf s2 then s2.drop 2
            else match s2 with | '#' :: rest => rest | _ => s2
  let six := s3.take 6
  let three := s3.take 3
  if six.length = 6 ∧ six.all isHexDig ∧ munchSp (s3.drop 6) = [] then
    match six with
    | [a, b, c, d, e, f] =>
      some (isBg, 16 * hexVal a + hexVal b, 16 * hexVal c + hexVal d, 16 * hexVal e + hexVal f)
    | _ => none
  else if three.length = 3 ∧ three.all isHexDig ∧ munchSp (s3.drop 3) = [] then
    match three with
    | [a, b, c] => some (isBg, 17 * hexVal a, 17 * hexVal b, 17 * hexVal c)
    | _ => none
  else none

/-- Pure tail of `FormatCodes._get_replacement`: the `CODES_MAP` table,
then the RGB literal pattern (with the `Color.is_valid_rgba` bounds check),
then the HEX literal pattern, finally falling back to the original
(pre-normalization) key. -/
def plainReplacement (origKey normKey : List Char) : List Char :=
  match lookupCode normKey with
  | some code => seq1 code
  | none =>
    match parseRgbKey normKey with
    | some (isBg, r, g, b) =>
      if r ≤ 255 ∧ g ≤ 255 ∧ b ≤ 255 then (if isBg then seqBgColor else seqColor) r g b
      else origKey
    | none =>
      match parseHexKey normKey with
      | some (isBg, r, g, b) => (if isBg then seqBgColor else seqColor) r g b
      | none => origKey

/-- `FormatCodes._get_replacement`: normalize the key, consult the
default-color resolution first (`_get_default_ansi` — its result is a
nonempty ANSI sequence whenever it is not `None`, so Python truthiness
coincides with `Option.isSome`), then the pure table / RGB / HEX chain. -/
def getReplacement (k : List Char) (dc : Option Rgba) (bs : Nat) :
    Except String (List Char) :=
  let norm := normalizeKey k
  match dc with
  | some c => do
    match ← defaultColorAnsi c (some norm) (some bs) with
    | some s => .ok s
    | none => .ok (plainReplacement k norm)
  | none => .ok (plainReplacement k norm)

end Xulbux

namespace Xulbux

/-- Nesting-aware scan for the closing bracket, as performed by the
recursive `Regex.brackets` pattern (`regex.py`) with
`ignore_in_strings=False`: any character other than the two bracket
characters is plain content; the scan fails when the input ends before the
matching close.  Returns the content before the matching close and the
remainder after it. -/
def scanClose (openC closeC : Char) : Nat → List Char → List Char → Option (List Char × List Char)
  | _, _, [] => none
  | d, acc, c :: rest =>
    if c = closeC then
      match d with
      | 0 => some (acc.reverse, rest)
      | d' + 1 => scanClose openC closeC d' (c :: acc) rest
    else if c = openC then scanClose openC closeC (d + 1) (c :: acc) rest
    else scanClose openC closeC d (c :: acc) rest

/-- One scanned `[...]` directive occurrence of `_PATTERNS.formatting`:
the key-list capture, the optional auto-reset span with its escape-marker
flag, and the full matched text. -/
structure DirMatch where
  formats : List Char
  auto : Option (Bool × List Char)
  raw : List Char
deriving DecidableEq, Repr

/-- Match of `_PATTERNS.formatting` at the current position: a balanced
`[...]` group, then optionally a single `/` or `\` marker (not doubled —
a doubled marker makes the whole optional group fail) followed by a
balanced `(...)` group.  Both bracket scans ignore quotes
(`ignore_in_strings=False` in `format_codes.py`). -/
def tokenMatch (cs : List Char) : Option (DirMatch × List Char) :=
  match cs with
  | '[' :: rest =>
    match scanClose '[' ']' 0 [] rest with
    | none => none
    | some (content, rem) =>
      let raw0 := '[' :: content ++ [']']
      match rem with
      | '(' :: rem2 =>
        match scanClose '(' ')' 0 [] rem2 with
        | some (t, rem3) => some (⟨content, some (false, t), raw0 ++ '(' :: t ++ [')']⟩, rem3)
        | none => some (⟨content, none, raw0⟩, rem)
      | m :: '(' :: rem2 =>
        if m = '/' ∨ m = '\\' then
          match scanClose '(' ')' 0 [] rem2 with
          | some (t, rem3) =>
            some (⟨content, some (true, t), raw0 ++ m :: '(' :: t ++ [')']⟩, rem3)
          | none => some (⟨content, none, raw0⟩, rem)
        else some (⟨content, none, raw0⟩, rem)
      | _ => some (⟨content, none, raw0⟩, rem)
  | _ => none

/-- Anchored match of `_PATTERNS.escape_char_cond`
(`(\s*\[\s*)(\/|\\)(?!\2+)`): after optional whitespace and `[` and more
optional whitespace, a slash or backslash that is not immediately repeated. -/
def escCharCond (raw : List Char) : Bool :=
  match munchSp raw with
  | '[' :: rest =>
    match munchSp rest with
    | c :: rest2 =>
      (c = '/' || c = '\\') && (match rest2 with | d :: _ => d ≠ c | [] => true)
    | [] => false
  | _ => false

/-- Global substitution of `_PATTERNS.escape_char` (`(\s*)(\/|\\)` replaced
by `\1`): every slash and backslash is removed, all other characters stay. -/
def stripSlashes (cs : List Char) : List Char :=
  cs.filter (fun c => c ≠ '/' ∧ c ≠ '\\')

/-- Match body of `_PATTERNS.star_reset`
(`\[\s*([^]_]*?)\s*\*\s*([^]_]*?)\]`) after an opening `[`: the window up
to the first `]` or `_` must end at `]` and contain a `*`; lazy matching
makes group 1 end at the first `*` (whitespace around the star is absorbed
by the `\s*`, whitespace after `[` by the leading `\s*`). -/
def starBody (rest : List Char) : Option (List Char × List Char × List Char) :=
  let w := rest.takeWhile (fun c => c ≠ ']' ∧ c ≠ '_')
  match rest.drop w.length with
  | ']' :: rem =>
    if '*' ∈ w then
      let pre := w.takeWhile (fun c => c ≠ '*')
      let post := w.drop (pre.length + 1)
      some (pyStrip pre, post.dropWhile isPySpace, rem)
    else none
  | _ => none

/-- Global substitution of `_PATTERNS.star_reset` performed at the top of
`to_ansi`: `[…*…]` becomes `[…_|default…]` when a default color is in use
and `[…_…]` otherwise. -/
def starResetSub (useDefault : Bool) : Nat → List Char → List Char
  | 0, cs => cs
  | _, [] => []
  | f + 1, c :: rest =>
    if c = '[' then
      match starBody rest with
      | some (g1, g2, rem) =>
        '[' :: g1 ++ (if useDefault then "_|default".data else ['_']) ++ g2 ++ [']']
          ++ starResetSub useDefault f rem
      | none => c :: starResetSub useDefault f rest
    else c :: starResetSub useDefault f rest

end Xulbux

namespace Xulbux

/-- One RGB component of `Regex.rgba_str`
(`0*(25[0-5]|2[0-4][0-9]|1?[0-9]{1,2})`): a digit run whose value after
stripping leading zeros fits in at most three digits and is at most 255. -/
def validRgbComp (run : List Char) : Bool :=
  run ≠ [] && run.all (·.isDigit) &&
    (let core := run.dropWhile (· = '0')
     core.length ≤ 2 || (core.length = 3 && digitsToNat core ≤ 255))

/-- The alpha component of `Regex.rgba_str`
(`0*(0?\.[0-9]+|1\.0+|[0-9]+\.[0-9]+|[0-9]+)`): digits with at most one
dot that is not the last character. -/
def validAlphaComp (run : List Char) : Bool :=
  run ≠ [] && run.all (fun c => c.isDigit || c = '.') &&
    (run.count '.' = 0 || (run.count '.' = 1 && run.getLast? ≠ some '.'))

/-- The free-form separator `\s*[^0-9A-Z]\s*` of `Regex.rgba_str` with
`fix_sep=None` under the `i` flag: one non-alphanumeric character that may
itself be whitespace, surrounded by optional whitespace. -/
def munchFreeSep (cs : List Char) : Option (List Char) :=
  let sp := cs.takeWhile isPySpace
  match cs.drop sp.length with
  | c :: rest => if ¬ c.isAlphanum then some (munchSp rest)
                 else if sp ≠ [] then some (cs.drop sp.length) else none
  | [] => if sp ≠ [] then some [] else none

/-- Full match of `Regex.rgba_str(fix_sep=None, allow_alpha=True)`
(the string branch of `Color.is_valid_rgba`): optional `rgb`/`rgba` word,
optional parentheses, three components with free separators, optional
alpha component, case-insensitive. -/
def isValidRgbaStr (k : List Char) : Bool :=
  (Id.run do
    let low := k.map Char.toLower
    let s1 := if "rgba".data.isPrefixOf low then low.drop 4
              else if "rgb".data.isPrefixOf low then low.drop 3 else low
    let s2 := munchSp s1
    let s3 := match s2 with | '(' :: r => r | _ => s2
    let s4 := munchSp s3
    let run1 := s4.takeWhile (fun c => c.isDigit)
    if ¬ validRgbComp run1 then return false
    let some s5 := munchFreeSep (s4.drop run1.length) | return false
    let run2 := s5.takeWhile (fun c => c.isDigit)
    if ¬ validRgbComp run2 then return false
    let some s6 := munchFreeSep (s5.drop run2.length) | return false
    let run3 := s6.takeWhile (fun c => c.isDigit)
    if ¬ validRgbComp run3 then return false
    let s7 := s6.drop run3.length
    -- `\s*\)?` then end of string, with an optional separator+alpha before it
    let finish (rest : List Char) : Bool :=
      let r1 := munchSp rest
      (match r1 with | ')' :: t => t = [] | _ => r1 = [])
    let withAlpha : Bool :=
      match munchFreeSep s7 with
      | some s8 =>
        let runA := s8.takeWhile (fun c => c.isDigit || c = '.')
        validAlphaComp runA && finish (s8.drop runA.length)
      | none => false
    return (withAlpha || finish s7))

/-- Full match of `Regex.hexa_str(allow_alpha=True)` after the prefix
stripping done in the string branch of `Color.is_valid_hexa`: an optional
`#` or `0x` prefix, then 3, 4, 6 or 8 hex digits. -/
def isValidHexaStr (k : List Char) : Bool :=
  let body := match k with
    | '#' :: r => r
    | '0' :: 'x' :: r => r
    | other => other
  body.all isHexDig && (body.length = 8 || body.length = 6 || body.length = 4 || body.length = 3)

/-- `_ReplaceKeysHelper.is_valid_color`: a `COLOR_MAP` name (exact,
case-sensitive), a valid RGBA string or a valid HEXA string. -/
def isValidColorKey (c : List Char) : Bool :=
  COLOR_MAP.contains c || isValidRgbaStr c || isValidHexaStr c

/-- The `default_color_resets` pair of `_ReplaceKeysHelper.gen_reset_codes`. -/
def defaultColorResets (useDefault : Bool) : List Char × List Char :=
  if useDefault then ("_bg".data, "default".data) else ("_bg".data, "_c".data)

/-- Classification of one applied key into reset keys
(`_ReplaceKeysHelper.gen_reset_codes`): background colors reset the
background (bright ones also the text color), foreground colors reset the
text color, anything else is treated as a style and reset by `_`-prefixing
the key itself. -/
def classifyResetKeys (useDefault : Bool) (k : List Char) : List (List Char) :=
  let resets := defaultColorResets useDefault
  let kLower := k.map Char.toLower
  let kParts := kLower.splitOn ':'
  let suffixColor : Bool := (List.range k.length).any (fun i => isValidColorKey (k.drop i))
  if kParts.any (fun p => bgAliases.contains p) && kParts.dedup.length ≤ 3 then
    if kParts.any (fun p => brAliases.contains p) then
      if suffixColor then [resets.1, resets.2] else []
    else
      if suffixColor then ["_bg".data] else []
  else if isValidColorKey k ||
      brAliases.any (fun p => (p ++ [':']).isPrefixOf kLower && isValidColorKey (k.drop (p.length + 1))) then
    [resets.2]
  else
    ['_' :: k]

/-- Left-to-right effectful map over a list of strings, as performed by
Python list comprehensions and generator folds (the first raised exception
propagates). -/
def mapME (f : List Char → Except String (List Char)) :
    List (List Char) → Except String (List (List Char))
  | [] => .ok []
  | x :: xs => do
    let y ← f x
    let ys ← mapME f xs
    pure (y :: ys)

/-- Reset generation for a directive's key list: classify every key, then
convert the reset keys and keep only those that resolved to an ANSI
sequence (`gen_reset_codes`). -/
def genResetCodes (keys : List (List Char)) (dc : Option Rgba) (bs : Nat) :
    Except String (List (List Char)) := do
  let resetKeys := keys.foldl (fun acc k => acc ++ classifyResetKeys dc.isSome k) []
  let rs ← mapME (fun k => getReplacement k dc bs) resetKeys
  pure (rs.filter (fun r => ansiStart.isPrefixOf r))

/-- Per-key conversion of `_ReplaceKeysHelper.convert_to_ansi`: an
unresolved key (replacement equal to the key) is wrapped back in square
brackets. -/
def keysToAnsi (keys : List (List Char)) (dc : Option Rgba) (bs : Nat) :
    Except String (List (List Char)) :=
  mapME (fun k => do
    let r ← getReplacement k dc bs
    pure (if r ≠ k then r else '[' :: k ++ [']'])) keys

/-- `_ReplaceKeysHelper.build_output`: emit the original match text unless
either all per-key conversions are ANSI sequences or there is a single
conversion containing an ANSI sequence anywhere; escaped directives are
re-emitted literally (with the processed auto-reset text); otherwise the
codes, the auto-reset text (recompiled when the span was escape-marked)
and, for unescaped spans, the reset codes are concatenated. -/
def buildOutput (rec : List Char → Except String (List Char))
    (fEsc : Bool) (origFormats : List Char) (ansiFs : List (List Char))
    (auto : Option (Bool × List Char)) (resets : List (List Char))
    (raw : List Char) : Except String (List Char) := do
  let hasSingle := ansiFs.length = 1 && listInfix ansiStart (ansiFs.headD [])
  let allValid := ansiFs.all (fun f => ansiStart.isPrefixOf f)
  if ¬ hasSingle ∧ ¬ allValid then
    pure raw
  else if fEsc then
    match auto with
    | some (_, t) =>
      if t ≠ [] then pure ('[' :: origFormats ++ "](".data ++ t ++ [')'])
      else pure ('[' :: origFormats ++ [']'])
    | none => pure ('[' :: origFormats ++ [']'])
  else do
    let core := ansiFs.foldl (· ++ ·) []
    match auto with
    | some (true, t) =>
      if t ≠ [] then do
        let t' ← rec t
        pure (core ++ '(' :: t' ++ [')'])
      else pure core
    | some (false, t) => pure (core ++ t ++ resets.foldl (· ++ ·) [])
    | none => pure (core ++ resets.foldl (· ++ ·) [])

/-- Recursive compilation of the auto-reset text when it contains both an
opening and a closing square bracket (`process_formats_and_auto_reset`). -/
def processAuto (rec : List Char → Except String (List Char))
    (auto : Option (Bool × List Char)) : Except String (Option (Bool × List Char)) :=
  match auto with
  | some (e, t) =>
    if '[' ∈ t ∧ ']' ∈ t then do
      let t' ← rec t
      pure (some (e, t'))
    else pure (some (e, t))
  | none => pure none

/-- Recursive compilation of the key list when it contains nested
formatting (`process_formats_and_auto_reset`). -/
def processNestedFormats (rec : List Char → Except String (List Char))
    (f : List Char) : Except String (List Char) :=
  if '[' ∈ f ∧ ']' ∈ f then rec f else pure f

/-- Reset generation gate of `convert_to_ansi`: resets are generated only
for a nonempty, unescaped auto-reset span. -/
def resetsFor (auto : Option (Bool × List Char)) (keys : List (List Char))
    (dc : Option Rgba) (bs : Nat) : Except String (List (List Char)) :=
  match auto with
  | some (false, t) => if t ≠ [] then genResetCodes keys dc bs else pure []
  | _ => pure []

/-- Processing of one directive match (`_ReplaceKeysHelper.__call__`):
detect escaped key lists, recursively compile nested formatting inside the
auto-reset text and the key list, then convert and assemble. -/
def processMatch (rec : List Char → Except String (List Char))
    (dc : Option Rgba) (bs : Nat) (m : DirMatch) :
    Except String (List Char) := do
  let fEsc := escCharCond m.raw
  let formats0 := if fEsc then stripSlashes m.formats else m.formats
  let auto' ← processAuto rec m.auto
  let formats' ← processNestedFormats rec formats0
  if formats' = [] then pure m.raw
  else do
    let keys := formatsToKeys formats'
    let ansiFs ← keysToAnsi keys dc bs
    let resets ← resetsFor auto' keys dc bs
    buildOutput rec fEsc formats0 ansiFs auto' resets m.raw

/-- Left-to-right substitution of `_PATTERNS.formatting` over one line
(`regex.sub` with `_ReplaceKeysHelper`); the fuel is at least the line
length, and every step consumes at least one character. -/
def processLine (rec : List Char → Except String (List Char))
    (dc : Option Rgba) (bs : Nat) : Nat → List Char → Except String (List Char)
  | _, [] => pure []
  | 0, cs => pure cs
  | f + 1, c :: rest =>
    match tokenMatch (c :: rest) with
    | some (m, rest') => do
      let chunk ← processMatch rec dc bs m
      let tail ← processLine rec dc bs f rest'
      pure (chunk ++ tail)
    | none => do
      let tail ← processLine rec dc bs f rest
      pure (c :: tail)

/-- `FormatCodes.to_ansi` after configuration validation: the `[*]`
substitution, per-line directive replacement and the optional leading
default-color sequence (`_get_default_ansi(default_color)`); nested
directives re-enter with `_default_start=False` and one unit of fuel less. -/
def toAnsiCore : Nat → Option Rgba → Nat → Bool → List Char → Except String (List Char)
  | 0, _, _, _, s => pure s
  | f + 1, dc, bs, defStart, s => do
    let s1 := starResetSub dc.isSome s.length s
    let lines := s1.splitOn '\n'
    let outs ← mapME (fun ln => processLine (toAnsiCore f dc bs false) dc bs ln.length ln) lines
    let joined := List.intercalate ['\n'] outs
    match dc with
    | some c => do
      let d ← defaultColorAnsi c none none
      pure ((if defStart then d.getD [] else []) ++ joined)
    | none => pure joined

/-- A raw `default_color` argument of the public entry points, modelling
the `Rgba` 3-tuple class of arguments (`tuple[int, int, int]`). -/
inductive ColorArg where
  | rgb3 (r g b : Int) : ColorArg
deriving DecidableEq, Repr

/-- `FormatCodes._validate_default_color`.  For `None` it returns no color.
For every other argument the source calls
`Color.is_valid_hexa(default_color, False)`, passing `False` positionally —
but `allow_alpha` is a keyword-only parameter of `is_valid_hexa`
(`color.py`), so Python raises `TypeError` at the call site before any
validation logic runs, for valid and invalid colors alike. -/
def validateDefaultColor (dc : Option ColorArg) : Except String (Option Rgba) :=
  match dc with
  | none => .ok none
  | some _ => .error "TypeError: is_valid_hexa() takes 2 positional arguments but 3 were given"

/-- `FormatCodes.to_ansi` (the `compile` driver): brightness validation,
default-color validation, then the core pipeline with sufficient fuel. -/
def toAnsi (s : List Char) (dc : Option ColorArg) (bs : Nat) : Except String (List Char) :=
  if 0 < bs ∧ bs ≤ 100 then do
    let dc' ← validateDefaultColor dc
    toAnsiCore (s.length + 1) dc' bs true s
  else .error "The 'brightness_steps' parameter must be between 1 and 100."

end Xulbux

namespace Xulbux

/-- Parameter byte class `[0-?]` of `_PATTERNS.ansi_seq`. -/
def isParamByte (c : Char) : Bool := 0x30 ≤ c.toNat && c.toNat ≤ 0x3F

/-- Intermediate byte class (space through slash) of `_PATTERNS.ansi_seq`. -/
def isInterByte (c : Char) : Bool := 0x20 ≤ c.toNat && c.toNat ≤ 0x2F

/-- Final byte class `[@-~]` of `_PATTERNS.ansi_seq`. -/
def isFinalByte (c : Char) : Bool := 0x40 ≤ c.toNat && c.toNat ≤ 0x7E

/-- Single-character escape class `[@-Z\\-_]` of `_PATTERNS.ansi_seq`. -/
def isSingleEscByte (c : Char) : Bool :=
  (0x40 ≤ c.toNat && c.toNat ≤ 0x5A) || (0x5C ≤ c.toNat && c.toNat ≤ 0x5F)

/-- Match of `_PATTERNS.ansi_seq`
(escape char, then a single byte of the short class or a `[`-introduced
sequence of parameter, intermediate and one final byte) at the current
position. -/
def ansiSeqMatch (cs : List Char) : Option (List Char × List Char) :=
  match cs with
  | e :: rest =>
    if e = escCh then
      match rest with
      | '[' :: r2 =>
        let ps := r2.takeWhile isParamByte
        let r3 := r2.drop ps.length
        let ins := r3.takeWhile isInterByte
        let r4 := r3.drop ins.length
        match r4 with
        | f :: r5 => if isFinalByte f then some (e :: '[' :: ps ++ ins ++ [f], r5) else none
        | [] => none
      | c :: r2 => if isSingleEscByte c then some ([e, c], r2) else none
      | [] => none
    else none
  | [] => none

/-- `FormatCodes.remove_ansi` with `get_removals=True` (and, via the first
component, with `get_removals=False`): delete every ANSI sequence and
record it at its offset in the cleaned string.  `_RemAnsiSeqHelper`
computes each position as the match start minus the total length removed
so far, which equals the length of the clean output built so far; the
helper's same-position merge line reassigns an identical value and is a
no-op, so it is not modelled. -/
def remScan : Nat → List Char → List Char × List (Nat × List Char)
  | 0, cs => (cs, [])
  | _, [] => ([], [])
  | f + 1, c :: rest =>
    match ansiSeqMatch (c :: rest) with
    | some (m, r) =>
      let res := remScan f r
      (res.1, (0, m) :: res.2)
    | none =>
      let res := remScan f rest
      (c :: res.1, res.2.map (fun p => (p.1 + 1, p.2)))

/-- `FormatCodes.remove_ansi` with `get_removals=True`. -/
def removeAnsi (s : List Char) : List Char × List (Nat × List Char) :=
  remScan s.length s

/-- `FormatCodes.remove` with `get_removals=True` and the default
`brightness_steps=20`: compile to ANSI, then strip with tracking. -/
def removeWithRemovals (s : List Char) (dc : Option ColorArg) :
    Except String (List Char × List (Nat × List Char)) := do
  let a ← toAnsi s dc 20
  pure (removeAnsi a)

/-- Insertion of a text at a position of a string. -/
def insertAt (n : Nat) (t s : List Char) : List Char := s.take n ++ t ++ s.drop n

/-- Reinsertion of removal records (ordered by ascending position) into the
cleaned string, right to left. -/
def reinsert (recs : List (Nat × List Char)) (clean : List Char) : List Char :=
  recs.foldr (fun pr acc => insertAt pr.1 pr.2 acc) clean

/-- Global substitution of `_PATTERNS.star_reset_inside`
(`([^|]*?)\s*\*\s*([^|]*)` replaced by `\1_\2` / `\1_|default\2`) used by
`_EscapeFormatCodeHelper` to validate key lists: within each pipe segment,
the text around the first `*` is kept (whitespace adjacent to the star is
absorbed) and the star replaced. -/
def starInsideSub (useDefault : Bool) : Nat → List Char → List Char
  | 0, cs => cs
  | _, [] => []
  | f + 1, cs =>
    let pre := cs.takeWhile (fun c => c ≠ '*' ∧ c ≠ '|')
    match cs.drop pre.length with
    | '*' :: rest =>
      let g1 := (pre.reverse.dropWhile isPySpace).reverse
      let afterSp := rest.dropWhile isPySpace
      let g2 := afterSp.takeWhile (fun c => c ≠ '|')
      let rem := afterSp.drop g2.length
      g1 ++ (if useDefault then "_|default".data else ['_']) ++ g2
        ++ starInsideSub useDefault f rem
    | '|' :: rest => pre ++ '|' :: starInsideSub useDefault f rest
    | _ => pre

/-- Key validation of `_EscapeFormatCodeHelper.__call__`: Python
`all(_get_replacement(k, default_color) != k for k in keys)` with its
left-to-right short-circuit (the default `brightness_steps=20` applies). -/
def validateKeys (keys : List (List Char)) (dc : Option Rgba) : Except String Bool :=
  match keys with
  | [] => pure true
  | k :: ks => do
    let r ← getReplacement k dc 20
    if r = k then pure false else validateKeys ks dc

/-- Recursive escaping of a nonempty auto-reset span by
`_EscapeFormatCodeHelper`: already-escaped or empty directives never reach
this step; the original escape marker before the span is dropped. -/
def escapeAutoPart (rec : List Char → Except String (List Char))
    (auto : Option (Bool × List Char)) : Except String (List Char) :=
  match auto with
  | some (_, t) =>
    if t ≠ [] then do
      let t' ← rec t
      pure ('(' :: t' ++ [')'])
    else pure ([] : List Char)
  | none => pure ([] : List Char)

/-- Processing of one directive match by `_EscapeFormatCodeHelper` (see
the doc comment above `escapeAutoPart` for the recursion into the span). -/
def escapeMatch (rec : List Char → Except String (List Char))
    (dc : Option Rgba) (ec : Char) (m : DirMatch) : Except String (List Char) := do
  if m.formats = [] ∨ escCharCond m.raw then pure m.raw
  else do
    let vf := starInsideSub dc.isSome m.formats.length m.formats
    let ok ← validateKeys (formatsToKeys vf) dc
    let autoPart ← escapeAutoPart rec m.auto
    if ok then pure ('[' :: ec :: m.formats ++ [']'] ++ autoPart)
    else pure ('[' :: m.formats ++ [']'] ++ autoPart)

/-- Left-to-right substitution of `_PATTERNS.formatting` over one line with
`_EscapeFormatCodeHelper`. -/
def escapeLine (rec : List Char → Except String (List Char))
    (dc : Option Rgba) (ec : Char) : Nat → List Char → Except String (List Char)
  | _, [] => pure []
  | 0, cs => pure cs
  | f + 1, c :: rest =>
    match tokenMatch (c :: rest) with
    | some (m, rest') => do
      let chunk ← escapeMatch rec dc ec m
      let tail ← escapeLine rec dc ec f rest'
      pure (chunk ++ tail)
    | none => do
      let tail ← escapeLine rec dc ec f rest
      pure (c :: tail)

/-- `FormatCodes.escape` below its argument validation; each recursive
call re-validates the carried default color exactly as the Python
recursion re-enters `escape` (`_validate_default_color` raises for every
non-`None` argument, see `validateDefaultColor`). -/
def escapeCore : Nat → Option Rgba → Char → List Char → Except String (List Char)
  | 0, _, _, s => pure s
  | f + 1, dc, ec, s => do
    let dc' ← (match dc with
      | none => Except.ok (none : Option Rgba)
      | some _ =>
        Except.error "TypeError: is_valid_hexa() takes 2 positional arguments but 3 were given")
    let lines := s.splitOn '\n'
    let outs ← mapME (fun ln => escapeLine (escapeCore f dc' ec) dc' ec ln.length ln) lines
    pure (List.intercalate ['\n'] outs)

/-- `FormatCodes.escape` (the `escape` driver). -/
def escape (s : List Char) (dc : Option ColorArg) (ec : Char) : Except String (List Char) := do
  let dc' ← validateDefaultColor dc
  escapeCore (s.length + 1) dc' ec s

end Xulbux

namespace Xulbux

/-- Modelled from the spec: the lightness update that §4.3.1 prescribes
for a lighten modifier of percentage `p` — `L + p/100 × (100 − L)`.  The
code's actual update is `adjustLightnessL`. -/
def specLightenedL (l p : ℚ) : ℚ := l + p / 100 * (100 - l)

/-- The eight style keys of the spec together with the SGR parameters of
their specific resets in `ANSI.CODES_MAP`. -/
def styleResetTable : List (List Char × Nat) :=
  [("bold".data, 22), ("dim".data, 22), ("italic".data, 23), ("underline".data, 24),
   ("double-underline".data, 24), ("inverse".data, 27), ("hidden".data, 28),
   ("strikethrough".data, 29)]

/-- The lightness value the engine stores for an `n`-step lighten modifier
at `brightness_steps = 20` (shown below to be what `_get_default_ansi`
computes via `Color.adjust_lightness`). -/
def modLight (dc : Rgba) (n : Nat) : ℤ :=
  max 0 (min 100 ((rgbToHsl dc.r dc.g dc.b).2.2 + (n * 20 : ℕ)))

end Xulbux

deriving instance DecidableEq for Except

namespace Xulbux

/-! Auxiliary lemmas about the embedding, shared by several theorems. -/

theorem ebind_ok {α β : Type} (a : α) (f : α → Except String β) :
    (Except.ok a >>= f) = f a := rfl

theorem ebind_err {α β : Type} (e : String) (f : α → Except String β) :
    ((Except.error e : Except String α) >>= f) = Except.error e := rfl

theorem listInfix_iff {p s : List Char} : listInfix p s = true ↔ p <:+: s := by
  simp only [listInfix, List.any_eq_true, List.infix_iff_prefix_suffix]
  constructor
  · rintro ⟨t, ht, hp⟩
    exact ⟨t, (List.isPrefixOf_iff_prefix).1 hp, (List.mem_tails t s).1 ht⟩
  · rintro ⟨t, hp, hs⟩
    exact ⟨t, (List.mem_tails t s).2 hs, (List.isPrefixOf_iff_prefix).2 hp⟩

theorem mapME_ok_length {f : List Char → Except String (List Char)} :
    ∀ {xs : List (List Char)} {l : List (List Char)},
      mapME f xs = .ok l → l.length = xs.length := by
  intro xs
  induction xs with
  | nil => intro l h; simp [mapME] at h; simp [← h]
  | cons x xs ih =>
    intro l h
    simp only [mapME] at h
    cases h1 : f x with
    | error e => rw [h1, ebind_err] at h; exact absurd h (by simp)
    | ok y =>
      rw [h1, ebind_ok] at h
      cases h2 : mapME f xs with
      | error e => rw [h2, ebind_err] at h; exact absurd h (by simp)
      | ok rest =>
        rw [h2, ebind_ok] at h
        have : (y :: rest) = l := Except.ok.inj h
        simp [← this, ih h2]

theorem mapME_ok_mem {f : List Char → Except String (List Char)} :
    ∀ {xs l : List (List Char)},
      mapME f xs = .ok l → ∀ x ∈ xs, ∃ y ∈ l, f x = .ok y := by
  intro xs
  induction xs with
  | nil => intro l _ x hx; simp at hx
  | cons x' xs ih =>
    intro l h x hx
    simp only [mapME] at h
    cases h1 : f x' with
    | error e => rw [h1, ebind_err] at h; exact absurd h (by simp)
    | ok y =>
      rw [h1, ebind_ok] at h
      cases h2 : mapME f xs with
      | error e => rw [h2, ebind_err] at h; exact absurd h (by simp)
      | ok rest =>
        rw [h2, ebind_ok] at h
        have hl : (y :: rest) = l := Except.ok.inj h
        rcases List.mem_cons.1 hx with hx | hx
        · exact ⟨y, by simp [← hl], hx ▸ h1⟩
        · rcases ih h2 x hx with ⟨z, hz, hfz⟩
          exact ⟨z, by simp [← hl, Or.inr hz], hfz⟩

theorem buildOutput_unresolved (rec : List Char → Except String (List Char))
    (fEsc : Bool) (origF : List Char) (ansiFs : List (List Char))
    (auto : Option (Bool × List Char)) (resets : List (List Char)) (raw : List Char)
    (h1 : (ansiFs.length = 1 && listInfix ansiStart (ansiFs.headD [])) = false)
    (h2 : ansiFs.all (fun f => ansiStart.isPrefixOf f) = false) :
    buildOutput rec fEsc origF ansiFs auto resets raw = .ok raw := by
  have hcond : ¬ ((decide (ansiFs.length = 1) && listInfix ansiStart (ansiFs.headD [])) = true) ∧
      ¬ ((ansiFs.all fun f => ansiStart.isPrefixOf f) = true) :=
    ⟨by rw [h1]; exact Bool.false_ne_true, by rw [h2]; exact Bool.false_ne_true⟩
  simp only [buildOutput]
  rw [if_pos hcond]
  rfl

theorem buildOutput_single_infix (rec : List Char → Except String (List Char))
    (origF : List Char) (f : List Char) (raw : List Char)
    (hinf : listInfix ansiStart f = true) :
    buildOutput rec false origF [f] none [] raw = .ok f := by
  have hcond : ¬ (¬ ((decide (([f] : List (List Char)).length = 1) &&
      listInfix ansiStart (([f] : List (List Char)).headD [])) = true) ∧
      ¬ ((([f] : List (List Char)).all fun g => ansiStart.isPrefixOf g) = true)) := by
    intro hc
    exact hc.1 (by simpa using hinf)
  simp only [buildOutput]
  rw [if_neg hcond]
  simp only [Bool.false_eq_true, if_false]
  show pure (List.foldl (fun x1 x2 => x1 ++ x2) [] [f]
    ++ List.foldl (fun x1 x2 => x1 ++ x2) [] []) = Except.ok f
  simp only [List.foldl, List.nil_append, List.append_nil]
  rfl

theorem ratFloor_eq_floor (q : ℚ) : ratFloor q = ⌊q⌋ := by
  rw [Rat.floor_def]
  exact Int.fdiv_eq_ediv q.num (by exact_mod_cast Nat.zero_le q.den)

theorem pyRound_nonneg {q : ℚ} (h : 0 ≤ q) : 0 ≤ pyRound q := by
  have hf : (0 : ℤ) ≤ ⌊q⌋ := Int.floor_nonneg.2 h
  unfold pyRound
  rw [ratFloor_eq_floor]
  dsimp only
  split
  · exact hf
  · split
    · omega
    · split <;> omega

theorem pyInt_intCast (z : ℤ) : pyInt (z : ℚ) = z := by
  unfold pyInt
  rw [ratFloor_eq_floor, ratFloor_eq_floor]
  split
  · exact Int.floor_intCast z
  · have : ((-z : ℤ) : ℚ) = -(z : ℚ) := by push_cast; ring
    rw [← this, Int.floor_intCast]
    omega

end Xulbux

namespace Xulbux

theorem parseModifier_replicate_l (n : Nat) (h : 1 ≤ n) :
    parseModifier (List.replicate n 'l') = some (false, 'l', n) := by
  obtain ⟨m, rfl⟩ : ∃ m, n = m + 1 := ⟨n - 1, by omega⟩
  cases m with
  | zero => decide
  | succ m' =>
    show parseModifier ('l' :: 'l' :: List.replicate m' 'l') = some (false, 'l', m' + 1 + 1)
    unfold parseModifier
    dsimp only
    rw [if_neg (by decide)]
    have hdw : List.dropWhile isPySpace ('l' :: 'l' :: List.replicate m' 'l')
        = 'l' :: 'l' :: List.replicate m' 'l' := by
      rw [List.dropWhile_cons_of_neg (by decide)]
    simp only [munchSp, Option.getD, Option.isSome, hdw]
    rw [if_pos ?_]
    · simp [List.length_replicate]
    · refine ⟨by decide, ?_⟩
      simp only [List.all_cons, List.all_eq_true, List.mem_replicate, decide_True,
        Bool.true_and]
      intro a ha
      simp [ha.2]

theorem defaultColorAnsi_modifier_eval (dc : Rgba) (k : List Char) (bs n : Nat)
    (c : Char) (isBg : Bool)
    (hw : hasDefaultWord k = false)
    (hm : parseModifier k = some (isBg, c, n)) :
    defaultColorAnsi dc (some k) (some bs) = (do
      let ch : ℚ := if c = '+' ∨ c = 'l' then (bs : ℚ) / 100 * n else -((bs : ℚ) / 100 * n)
      let c' ← adjustLightness dc ch
      Except.ok (some ((if isBg then seqBgColor else seqColor) c'.r c'.g c'.b))) := by
  unfold defaultColorAnsi
  rw [if_neg (by simp [hw])]
  rw [if_neg (by simp)]
  dsimp only [Option.getD]
  rw [hm]

theorem adjustLightnessL_int (l z : ℤ) (a : ℚ) (hz : a * 100 = (z : ℚ)) :
    adjustLightnessL l a = max 0 (min 100 (l + z)) := by
  unfold adjustLightnessL
  have hcast : max 0 (min 100 ((l : ℚ) + a * 100)) = ((max 0 (min 100 (l + z)) : ℤ) : ℚ) := by
    rw [hz]
    push_cast
    rfl
  rw [hcast, pyInt_intCast]

theorem adjustLightness_ok (dc : Rgba) (a : ℚ) (h1 : -1 ≤ a) (h2 : a ≤ 1) :
    adjustLightness dc a =
      .ok (let hsl := rgbToHsl dc.r dc.g dc.b
           let rgb := hslToRgb hsl.1 hsl.2.1 (adjustLightnessL hsl.2.2 a)
           ⟨rgb.1.toNat, rgb.2.1.toNat, rgb.2.2.toNat⟩) := by
  unfold adjustLightness
  rw [if_pos ⟨h1, h2⟩]

theorem adjustLightness_err (dc : Rgba) (a : ℚ) (h : ¬ (-1 ≤ a ∧ a ≤ 1)) :
    (adjustLightness dc a).isOk = false := by
  unfold adjustLightness
  rw [if_neg h]
  rfl

theorem defaultColorAnsi_lighten (dc : Rgba) (k : List Char) (bs n : Nat)
    (hw : hasDefaultWord k = false)
    (hm : parseModifier k = some (false, 'l', n))
    (hb : n * bs ≤ 100) :
    defaultColorAnsi dc (some k) (some bs) =
      .ok (some (let hsl := rgbToHsl dc.r dc.g dc.b
                 let rgb := hslToRgb hsl.1 hsl.2.1 (max 0 (min 100 (hsl.2.2 + (n * bs : ℕ))))
                 seqColor rgb.1.toNat rgb.2.1.toNat rgb.2.2.toNat)) := by
  rw [defaultColorAnsi_modifier_eval dc k bs n 'l' false hw hm]
  have hch : ((if ('l' : Char) = '+' ∨ ('l' : Char) = 'l' then (bs : ℚ) / 100 * n
      else -((bs : ℚ) / 100 * n)) : ℚ) = (bs : ℚ) / 100 * n := by
    rw [if_pos (Or.inr rfl)]
  rw [hch]
  dsimp only
  have hle : (bs : ℚ) / 100 * n ≤ 1 := by
    rw [div_mul_eq_mul_div, div_le_one (by norm_num)]
    exact_mod_cast Nat.mul_comm n bs ▸ hb
  have hge : (-1 : ℚ) ≤ (bs : ℚ) / 100 * n :=
    le_trans (show (-1 : ℚ) ≤ 0 by norm_num) (by positivity)
  rw [adjustLightness_ok dc _ hge hle, ebind_ok]
  dsimp only
  have hzz : ((bs : ℚ) / 100 * n) * 100 = ((n * bs : ℕ) : ℚ) := by
    push_cast
    field_simp
    ring
  rw [adjustLightnessL_int _ ((n * bs : ℕ) : ℤ) _ (by exact_mod_cast hzz)]
  push_cast
  rfl

theorem defaultColorAnsi_darken (dc : Rgba) (k : List Char) (bs n : Nat)
    (hw : hasDefaultWord k = false)
    (hm : parseModifier k = some (false, 'd', n))
    (hb : n * bs ≤ 100) :
    defaultColorAnsi dc (some k) (some bs) =
      .ok (some (let hsl := rgbToHsl dc.r dc.g dc.b
                 let rgb := hslToRgb hsl.1 hsl.2.1 (max 0 (min 100 (hsl.2.2 - (n * bs : ℕ))))
                 seqColor rgb.1.toNat rgb.2.1.toNat rgb.2.2.toNat)) := by
  rw [defaultColorAnsi_modifier_eval dc k bs n 'd' false hw hm]
  have hch : ((if ('d' : Char) = '+' ∨ ('d' : Char) = 'l' then (bs : ℚ) / 100 * n
      else -((bs : ℚ) / 100 * n)) : ℚ) = -((bs : ℚ) / 100 * n) := by
    rw [if_neg (by decide)]
  rw [hch]
  dsimp only
  have hle : (bs : ℚ) / 100 * n ≤ 1 := by
    rw [div_mul_eq_mul_div, div_le_one (by norm_num)]
    exact_mod_cast Nat.mul_comm n bs ▸ hb
  have hge : (-1 : ℚ) ≤ -((bs : ℚ) / 100 * n) := by
    have := neg_le_neg hle
    simpa using this
  have hle2 : -((bs : ℚ) / 100 * n) ≤ 1 := by
    have h0 : (0 : ℚ) ≤ (bs : ℚ) / 100 * n := by positivity
    linarith
  rw [adjustLightness_ok dc _ hge hle2, ebind_ok]
  dsimp only
  have hzz : (-((bs : ℚ) / 100 * n)) * 100 = ((-(n * bs : ℕ) : ℤ) : ℚ) := by
    push_cast
    field_simp
    ring
  rw [adjustLightnessL_int _ (-((n * bs : ℕ) : ℤ)) _ hzz]
  have heq : (rgbToHsl dc.r dc.g dc.b).2.2 + -((n * bs : ℕ) : ℤ) =
      (rgbToHsl dc.r dc.g dc.b).2.2 - ((n * bs : ℕ) : ℤ) := by ring
  rw [heq]
  rfl

theorem defaultColorAnsi_modifier_overflow (dc : Rgba) (k : List Char) (bs n : Nat)
    (c : Char) (isBg : Bool)
    (hw : hasDefaultWord k = false)
    (hm : parseModifier k = some (isBg, c, n))
    (hbig : 100 < n * bs) :
    (defaultColorAnsi dc (some k) (some bs)).isOk = false := by
  rw [defaultColorAnsi_modifier_eval dc k bs n c isBg hw hm]
  have hgt : (1 : ℚ) < (bs : ℚ) / 100 * n := by
    rw [div_mul_eq_mul_div, lt_div_iff₀ (by norm_num)]
    have : (100 : ℚ) < (n * bs : ℕ) := by exact_mod_cast hbig
    push_cast at this ⊢
    linarith
  by_cases hc : c = '+' ∨ c = 'l'
  · rw [if_pos hc]
    dsimp only
    have herr : (adjustLightness dc ((bs : ℚ) / 100 * n)).isOk = false :=
      adjustLightness_err dc _ (by intro hcon; linarith [hcon.2])
    cases hx : adjustLightness dc ((bs : ℚ) / 100 * n) with
    | error e => rw [ebind_err]; rfl
    | ok v => rw [hx] at herr; simp [Except.isOk, Except.toBool] at herr
  · rw [if_neg hc]
    dsimp only
    have herr : (adjustLightness dc (-((bs : ℚ) / 100 * n))).isOk = false :=
      adjustLightness_err dc _ (by intro hcon; linarith [hcon.1])
    cases hx : adjustLightness dc (-((bs : ℚ) / 100 * n)) with
    | error e => rw [ebind_err]; rfl
    | ok v => rw [hx] at herr; simp [Except.isOk, Except.toBool] at herr

theorem hasDefaultWord_replicate_l (n : Nat) :
    hasDefaultWord (List.replicate n 'l') = false := by
  induction n with
  | zero => decide
  | succ m ih =>
    unfold hasDefaultWord listInfix at ih ⊢
    rw [List.replicate_succ, List.tails_cons, List.any_cons, ih]
    simp [List.isPrefixOf]

theorem rgbToHsl_l_nonneg (r g b : Nat) : 0 ≤ (rgbToHsl r g b).2.2 := by
  unfold rgbToHsl
  have h0 : (0 : ℚ) ≤ ((max ((r : ℚ) / 255) (max ((g : ℚ) / 255) ((b : ℚ) / 255))
      + min ((r : ℚ) / 255) (min ((g : ℚ) / 255) ((b : ℚ) / 255))) / 2) * 100 := by
    have h1 : (0 : ℚ) ≤ (r : ℚ) / 255 := by positivity
    have h2 : (0 : ℚ) ≤ (g : ℚ) / 255 := by positivity
    have h3 : (0 : ℚ) ≤ (b : ℚ) / 255 := by positivity
    have hmax : (0 : ℚ) ≤ max ((r : ℚ) / 255) (max ((g : ℚ) / 255) ((b : ℚ) / 255)) :=
      le_trans h1 (le_max_left _ _)
    have hmin : (0 : ℚ) ≤ min ((r : ℚ) / 255) (min ((g : ℚ) / 255) ((b : ℚ) / 255)) :=
      le_min h1 (le_min h2 h3)
    positivity
  dsimp only
  split
  · exact pyRound_nonneg h0
  · exact pyRound_nonneg h0

theorem getReplacement_none (k : List Char) (bs : Nat) :
    getReplacement k none bs = .ok (plainReplacement k (normalizeKey k)) := rfl

theorem mapME_ok_of_all {f : List Char → Except String (List Char)}
    (h : ∀ x, ∃ v, f x = .ok v) : ∀ xs, ∃ l, mapME f xs = .ok l := by
  intro xs
  induction xs with
  | nil => exact ⟨[], rfl⟩
  | cons x xs ih =>
    rcases h x with ⟨v, hv⟩
    rcases ih with ⟨l, hl⟩
    refine ⟨v :: l, ?_⟩
    simp only [mapME]
    rw [hv, ebind_ok, hl, ebind_ok]
    rfl

theorem keysToAnsi_none_ok (keys : List (List Char)) (bs : Nat) :
    ∃ l, keysToAnsi keys none bs = .ok l := by
  apply mapME_ok_of_all
  intro x
  show ∃ v, (getReplacement x none bs >>=
    fun r => pure (if r ≠ x then r else '[' :: x ++ [']'])) = .ok v
  rw [getReplacement_none, ebind_ok]
  exact ⟨_, rfl⟩

theorem genResetCodes_none_ok (keys : List (List Char)) (bs : Nat) :
    ∃ l, genResetCodes keys none bs = .ok l := by
  unfold genResetCodes
  rcases mapME_ok_of_all (f := fun k => getReplacement k none bs)
      (fun x => ⟨_, getReplacement_none x bs⟩)
      (List.foldl (fun acc k => acc ++ classifyResetKeys (none : Option Rgba).isSome k) [] keys) with
    ⟨l, hl⟩
  dsimp only
  rw [hl, ebind_ok]
  exact ⟨_, rfl⟩

theorem buildOutput_ok (rec : List Char → Except String (List Char))
    (hrec : ∀ t, ∃ v, rec t = .ok v)
    (fEsc : Bool) (origF : List Char) (ansiFs : List (List Char))
    (auto : Option (Bool × List Char)) (resets : List (List Char)) (raw : List Char) :
    ∃ v, buildOutput rec fEsc origF ansiFs auto resets raw = .ok v := by
  unfold buildOutput
  dsimp only
  split
  · exact ⟨raw, rfl⟩
  · split
    · rcases auto with _ | ⟨e, t⟩
      · exact ⟨_, rfl⟩
      · dsimp only
        split <;> exact ⟨_, rfl⟩
    · rcases auto with _ | ⟨e, t⟩
      · exact ⟨_, rfl⟩
      · rcases e with _ | _
        · exact ⟨_, rfl⟩
        · dsimp only
          split
          · rcases hrec t with ⟨v, hv⟩
            exact ⟨_, by rw [hv, ebind_ok]; rfl⟩
          · exact ⟨_, rfl⟩

end Xulbux

namespace Xulbux

theorem processAuto_ok (rec : List Char → Except String (List Char))
    (hrec : ∀ t, ∃ v, rec t = .ok v) (auto : Option (Bool × List Char)) :
    ∃ v, processAuto rec auto = .ok v := by
  rcases auto with _ | ⟨e, t⟩
  · exact ⟨_, rfl⟩
  · by_cases hb : '[' ∈ t ∧ ']' ∈ t
    · rcases hrec t with ⟨v, hv⟩
      refine ⟨some (e, v), ?_⟩
      show (if '[' ∈ t ∧ ']' ∈ t then rec t >>= fun t' => pure (some (e, t'))
        else pure (some (e, t))) = Except.ok (some (e, v))
      rw [if_pos hb, hv]
      rfl
    · refine ⟨some (e, t), ?_⟩
      show (if '[' ∈ t ∧ ']' ∈ t then rec t >>= fun t' => pure (some (e, t'))
        else pure (some (e, t))) = Except.ok (some (e, t))
      rw [if_neg hb]
      rfl

theorem processNestedFormats_ok (rec : List Char → Except String (List Char))
    (hrec : ∀ t, ∃ v, rec t = .ok v) (f : List Char) :
    ∃ v, processNestedFormats rec f = .ok v := by
  unfold processNestedFormats
  split
  · exact hrec f
  · exact ⟨_, rfl⟩

theorem resetsFor_none_ok (auto : Option (Bool × List Char))
    (keys : List (List Char)) (bs : Nat) :
    ∃ v, resetsFor auto keys none bs = .ok v := by
  rcases auto with _ | ⟨e, t⟩
  · exact ⟨_, rfl⟩
  · cases e
    · show ∃ v, (if t ≠ [] then genResetCodes keys none bs else pure []) = .ok v
      split
      · exact genResetCodes_none_ok keys bs
      · exact ⟨_, rfl⟩
    · exact ⟨_, rfl⟩

theorem processMatch_none_ok (rec : List Char → Except String (List Char))
    (hrec : ∀ t, ∃ v, rec t = .ok v) (bs : Nat) (m : DirMatch) :
    ∃ v, processMatch rec none bs m = .ok v := by
  unfold processMatch
  rcases processAuto_ok rec hrec m.auto with ⟨a, ha⟩
  rcases processNestedFormats_ok rec hrec
      (if escCharCond m.raw then stripSlashes m.formats else m.formats) with ⟨f', hf⟩
  rw [ha, ebind_ok, hf, ebind_ok]
  split
  · exact ⟨_, rfl⟩
  · show ∃ v, (keysToAnsi (formatsToKeys f') none bs >>= fun ansiFs =>
      resetsFor a (formatsToKeys f') none bs >>= fun resets =>
      buildOutput rec (escCharCond m.raw)
        (if escCharCond m.raw then stripSlashes m.formats else m.formats)
        ansiFs a resets m.raw) = Except.ok v
    rcases keysToAnsi_none_ok (formatsToKeys f') bs with ⟨l, hl⟩
    rw [hl, ebind_ok]
    rcases resetsFor_none_ok a (formatsToKeys f') bs with ⟨r, hr⟩
    rw [hr, ebind_ok]
    exact buildOutput_ok rec hrec _ _ _ _ _ _

theorem processLine_none_ok (rec : List Char → Except String (List Char))
    (hrec : ∀ t, ∃ v, rec t = .ok v) (bs : Nat) :
    ∀ f cs, ∃ v, processLine rec none bs f cs = .ok v := by
  intro f
  induction f with
  | zero =>
    intro cs
    cases cs
    · exact ⟨_, rfl⟩
    · exact ⟨_, rfl⟩
  | succ f ih =>
    intro cs
    cases cs with
    | nil => exact ⟨_, rfl⟩
    | cons c rest =>
      show ∃ v, (match tokenMatch (c :: rest) with
        | some (m, rest') => do
          let chunk ← processMatch rec none bs m
          let tail ← processLine rec none bs f rest'
          pure (chunk ++ tail)
        | none => do
          let tail ← processLine rec none bs f rest
          pure (c :: tail)) = .ok v
      cases htm : tokenMatch (c :: rest) with
      | some p =>
        obtain ⟨m, rest'⟩ := p
        dsimp only
        rcases processMatch_none_ok rec hrec bs m with ⟨v1, hv1⟩
        rcases ih rest' with ⟨v2, hv2⟩
        rw [hv1, ebind_ok, hv2, ebind_ok]
        exact ⟨_, rfl⟩
      | none =>
        dsimp only
        rcases ih rest with ⟨v2, hv2⟩
        rw [hv2, ebind_ok]
        exact ⟨_, rfl⟩

theorem toAnsiCore_none_ok (bs : Nat) :
    ∀ f defStart s, ∃ v, toAnsiCore f none bs defStart s = .ok v := by
  intro f
  induction f with
  | zero => intro defStart s; exact ⟨_, rfl⟩
  | succ f ih =>
    intro defStart s
    show ∃ v, (mapME (fun ln => processLine (toAnsiCore f none bs false) none bs ln.length ln)
        ((starResetSub false s.length s).splitOn '\n') >>=
      fun outs => pure (List.intercalate ['\n'] outs)) = .ok v
    rcases mapME_ok_of_all
        (f := fun ln => processLine (toAnsiCore f none bs false) none bs ln.length ln)
        (fun ln => processLine_none_ok _ (fun t => ih false t) bs ln.length ln)
        ((starResetSub false s.length s).splitOn '\n') with ⟨l, hl⟩
    rw [hl, ebind_ok]
    exact ⟨_, rfl⟩

theorem toAnsi_none_ok (s : List Char) (bs : Nat) (h1 : 0 < bs) (h2 : bs ≤ 100) :
    ∃ v, toAnsi s none bs = .ok v := by
  unfold toAnsi
  rw [if_pos ⟨h1, h2⟩]
  show ∃ v, (validateDefaultColor none >>=
    fun dc' => toAnsiCore (s.length + 1) dc' bs true s) = .ok v
  rw [show validateDefaultColor none = .ok none from rfl, ebind_ok]
  exact toAnsiCore_none_ok bs (s.length + 1) true s

end Xulbux

namespace Xulbux

theorem validateKeys_none_ok : ∀ keys, ∃ v, validateKeys keys none = .ok v := by
  intro keys
  induction keys with
  | nil => exact ⟨_, rfl⟩
  | cons k ks ih =>
    show ∃ v, (getReplacement k none 20 >>= fun r =>
      if r = k then pure false else validateKeys ks none) = Except.ok v
    rw [getReplacement_none, ebind_ok]
    split
    · exact ⟨_, rfl⟩
    · exact ih

theorem escapeAutoPart_ok (rec : List Char → Except String (List Char))
    (hrec : ∀ t, ∃ v, rec t = .ok v) (auto : Option (Bool × List Char)) :
    ∃ v, escapeAutoPart rec auto = .ok v := by
  rcases auto with _ | ⟨e, t⟩
  · exact ⟨_, rfl⟩
  · show ∃ v, (if t ≠ [] then rec t >>= fun t' => pure ('(' :: t' ++ [')'])
      else pure ([] : List Char)) = Except.ok v
    split
    · rcases hrec t with ⟨w, hw⟩
      exact ⟨_, by rw [hw]; rfl⟩
    · exact ⟨_, rfl⟩

theorem escapeMatch_none_ok (rec : List Char → Except String (List Char))
    (hrec : ∀ t, ∃ v, rec t = .ok v) (ec : Char) (m : DirMatch) :
    ∃ v, escapeMatch rec none ec m = .ok v := by
  unfold escapeMatch
  split
  · exact ⟨_, rfl⟩
  · show ∃ v, (validateKeys
        (formatsToKeys (starInsideSub (none : Option Rgba).isSome m.formats.length m.formats))
        none >>= fun ok =>
      escapeAutoPart rec m.auto >>= fun autoPart =>
      if ok then pure ('[' :: ec :: m.formats ++ [']'] ++ autoPart)
      else pure ('[' :: m.formats ++ [']'] ++ autoPart)) = Except.ok v
    rcases validateKeys_none_ok
        (formatsToKeys (starInsideSub (none : Option Rgba).isSome m.formats.length m.formats)) with
      ⟨b, hb⟩
    rw [hb, ebind_ok]
    rcases escapeAutoPart_ok rec hrec m.auto with ⟨ap, hap⟩
    rw [hap, ebind_ok]
    split
    · exact ⟨_, rfl⟩
    · exact ⟨_, rfl⟩

theorem escapeLine_none_ok (rec : List Char → Except String (List Char))
    (hrec : ∀ t, ∃ v, rec t = .ok v) (ec : Char) :
    ∀ f cs, ∃ v, escapeLine rec none ec f cs = .ok v := by
  intro f
  induction f with
  | zero =>
    intro cs
    cases cs
    · exact ⟨_, rfl⟩
    · exact ⟨_, rfl⟩
  | succ f ih =>
    intro cs
    cases cs with
    | nil => exact ⟨_, rfl⟩
    | cons c rest =>
      show ∃ v, (match tokenMatch (c :: rest) with
        | some (m, rest') => do
          let chunk ← escapeMatch rec none ec m
          let tail ← escapeLine rec none ec f rest'
          pure (chunk ++ tail)
        | none => do
          let tail ← escapeLine rec none ec f rest
          pure (c :: tail)) = .ok v
      cases htm : tokenMatch (c :: rest) with
      | some p =>
        obtain ⟨m, rest'⟩ := p
        dsimp only
        rcases escapeMatch_none_ok rec hrec ec m with ⟨v1, hv1⟩
        rcases ih rest' with ⟨v2, hv2⟩
        rw [hv1, ebind_ok, hv2, ebind_ok]
        exact ⟨_, rfl⟩
      | none =>
        dsimp only
        rcases ih rest with ⟨v2, hv2⟩
        rw [hv2, ebind_ok]
        exact ⟨_, rfl⟩

theorem escapeCore_none_ok (ec : Char) :
    ∀ f s, ∃ v, escapeCore f none ec s = .ok v := by
  intro f
  induction f with
  | zero => intro s; exact ⟨_, rfl⟩
  | succ f ih =>
    intro s
    show ∃ v, (mapME (fun ln => escapeLine (escapeCore f none ec) none ec ln.length ln)
        (s.splitOn '\n') >>=
      fun outs => pure (List.intercalate ['\n'] outs)) = .ok v
    rcases mapME_ok_of_all
        (f := fun ln => escapeLine (escapeCore f none ec) none ec ln.length ln)
        (fun ln => escapeLine_none_ok _ (fun t => ih t) ec ln.length ln)
        (s.splitOn '\n') with ⟨l, hl⟩
    rw [hl, ebind_ok]
    exact ⟨_, rfl⟩

theorem escape_none_ok (s : List Char) (ec : Char) :
    ∃ v, escape s none ec = .ok v := by
  show ∃ v, (validateDefaultColor none >>=
    fun dc' => escapeCore (s.length + 1) dc' ec s) = .ok v
  rw [show validateDefaultColor none = .ok none from rfl, ebind_ok]
  exact escapeCore_none_ok ec (s.length + 1) s

theorem toAnsi_some_err (s : List Char) (ca : ColorArg) (bs : Nat)
    (h1 : 0 < bs) (h2 : bs ≤ 100) :
    toAnsi s (some ca) bs =
      .error "TypeError: is_valid_hexa() takes 2 positional arguments but 3 were given" := by
  unfold toAnsi
  rw [if_pos ⟨h1, h2⟩]
  rfl

theorem escape_some_err (s : List Char) (ca : ColorArg) (ec : Char) :
    escape s (some ca) ec =
      .error "TypeError: is_valid_hexa() takes 2 positional arguments but 3 were given" := rfl

theorem removeWithRemovals_some_err (s : List Char) (ca : ColorArg) :
    removeWithRemovals s (some ca) =
      .error "TypeError: is_valid_hexa() takes 2 positional arguments but 3 were given" := by
  unfold removeWithRemovals
  rw [toAnsi_some_err s ca 20 (by norm_num) (by norm_num), ebind_err]

theorem removeWithRemovals_none_ok (s : List Char) :
    ∃ v, removeWithRemovals s none = .ok v := by
  unfold removeWithRemovals
  rcases toAnsi_none_ok s 20 (by norm_num) (by norm_num) with ⟨a, ha⟩
  rw [ha, ebind_ok]
  exact ⟨_, rfl⟩

theorem toAnsi_bad_brightness (s : List Char) (dc : Option ColorArg) (bs : Nat)
    (h : ¬ (0 < bs ∧ bs ≤ 100)) :
    toAnsi s dc bs =
      .error "The 'brightness_steps' parameter must be between 1 and 100." := by
  unfold toAnsi
  rw [if_neg h]

end Xulbux

namespace Xulbux

theorem ansiStart_not_prefix_bracket (t : List Char) :
    ansiStart.isPrefixOf ('[' :: t) = false := by
  show ((escCh == '[') && List.isPrefixOf ['['] t) = false
  rw [show (escCh == '[') = false by decide]
  rfl

/-- C1: for a directive of two or more pipe-separated keys, one unresolved
key (its replacement equals the key itself) forces `build_output` to emit
the raw bracketed text unchanged; concretely the bold key is not applied
in `compile("[bold|totallyInvalid]x")`. -/
theorem c1 :
    (∀ (rec : List Char → Except String (List Char)) (fEsc : Bool)
       (origF : List Char) (keys ansiFs : List (List Char))
       (auto : Option (Bool × List Char)) (resets : List (List Char))
       (raw : List Char) (bs : Nat),
      2 ≤ keys.length →
      (∃ k ∈ keys, getReplacement k none bs = .ok k) →
      keysToAnsi keys none bs = .ok ansiFs →
      buildOutput rec fEsc origF ansiFs auto resets raw = .ok raw)
    ∧ toAnsi "[bold|totallyInvalid]x".data none 20 = .ok "[bold|totallyInvalid]x".data
    ∧ listInfix "[bold|totallyInvalid]".data "[bold|totallyInvalid]x".data = true
    ∧ listInfix (seq1 1) "[bold|totallyInvalid]x".data = false := by
  refine ⟨?_, by decide, by decide, by decide⟩
  rintro rec fEsc origF keys ansiFs auto resets raw bs hlen ⟨k, hk, hrep⟩ hmap
  have hmap' : mapME (fun k => do
      let r ← getReplacement k none bs
      pure (if r ≠ k then r else '[' :: k ++ [']'])) keys = .ok ansiFs := hmap
  have hlen' : ansiFs.length = keys.length := mapME_ok_length hmap'
  rcases mapME_ok_mem hmap' k hk with ⟨y, hy, hfy⟩
  rw [hrep, ebind_ok] at hfy
  rw [if_neg (by simp)] at hfy
  have hyv : y = '[' :: k ++ [']'] := (Except.ok.inj hfy).symm
  apply buildOutput_unresolved
  · rw [decide_eq_false (by omega)]
    rfl
  · rw [List.all_eq_false]
    refine ⟨y, hy, ?_⟩
    rw [hyv, show ('[' :: k ++ [']'] : List Char) = '[' :: (k ++ [']']) from rfl,
      ansiStart_not_prefix_bracket]
    simp

/-- C4: contrary to the spec's resolution order, `_get_replacement`
consults the default-color logic before the style table: the key `d` is
in the table as an alias of dim (SGR 2) and resolves to it without a
default color, but with a default color set it darkens that color
instead. -/
theorem c4 :
    lookupCode "d".data = some 2
    ∧ getReplacement "d".data none 20 = .ok (seq1 2)
    ∧ getReplacement "d".data (some ⟨128, 128, 128⟩) 20 = .ok (seqColor 76 76 76) := by
  refine ⟨by decide, by decide, ?_⟩
  with_unfolding_all decide

theorem c4_cex :
    getReplacement "d".data (some ⟨128, 128, 128⟩) 20 ≠ .ok (seq1 2) := by
  with_unfolding_all decide

/-- C5: for each of the eight style keys the generated auto-reset code is
the style's specific reset (never SGR 0), and
`compile("[cyan]a [u](b) c")` closes the underline span with the
underline-specific reset only, leaving the cyan foreground active. -/
theorem c5 :
    (styleResetTable.all (fun p =>
      decide (genResetCodes [p.1] none 20 = .ok [seq1 p.2] ∧ p.2 ≠ 0))) = true
    ∧ toAnsi "[cyan]a [u](b) c".data none 20 =
        .ok (seq1 36 ++ "a ".data ++ seq1 4 ++ "b".data ++ seq1 24 ++ " c".data)
    ∧ listInfix (seq1 0)
        (seq1 36 ++ "a ".data ++ seq1 4 ++ "b".data ++ seq1 24 ++ " c".data) = false
    ∧ listInfix (seq1 39)
        (seq1 36 ++ "a ".data ++ seq1 4 ++ "b".data ++ seq1 24 ++ " c".data) = false := by
  refine ⟨by decide, by decide, by decide, by decide⟩

/-- C8: because the tokenizer builds its parenthesis matcher with
`ignore_in_strings=False`, a quoted `)` does close the auto-reset span:
for `[b]("x)y")` the captured span is `"x` and the remainder `y")` stays
outside the directive. -/
theorem c8 :
    tokenMatch "[b](\"x)y\")".data =
      some (⟨"b".data, some (false, "\"x".data), "[b](\"x)".data⟩, "y\")".data)
    ∧ toAnsi "[b](\"x)y\")".data none 20 =
        .ok (seq1 1 ++ "\"x".data ++ seq1 22 ++ "y\")".data) := ⟨by decide, by decide⟩

theorem c8_cex :
    (tokenMatch "[b](\"x)y\")".data).map (fun p => p.1.auto) ≠
      some (some (false, "\"x)y\"".data)) := by decide

/-- C10: a single-key directive whose key is unresolved but whose
replacement contains an ANSI sequence somewhere is emitted converted, not
verbatim: `compile("[x[b]y]")` yields `[x`, the bold sequence, `y]`. -/
theorem c10 :
    toAnsi "[x[b]y]".data none 20 = .ok ("[x".data ++ seq1 1 ++ "y]".data)
    ∧ (∀ (rec : List Char → Except String (List Char)) (origF f raw : List Char),
        listInfix ansiStart f = true →
        buildOutput rec false origF [f] none [] raw = .ok f) := by
  refine ⟨by decide, ?_⟩
  intro rec origF f raw h
  exact buildOutput_single_infix rec origF f raw h

theorem c10_witness :
    buildOutput (fun t => Except.ok t) false [] [seq1 1] none [] "raw".data
      = .ok (seq1 1) :=
  c10.2 (fun t => Except.ok t) [] (seq1 1) "raw".data (by decide)

end Xulbux

namespace Xulbux

theorem c1_witness :
    buildOutput (fun t => Except.ok t) false []
      [seq1 1, '[' :: "totallyInvalid".data ++ [']']] none [] "x".data = .ok "x".data :=
  c1.1 (fun t => Except.ok t) false [] ["bold".data, "totallyInvalid".data]
    [seq1 1, '[' :: "totallyInvalid".data ++ [']']] none [] "x".data 20 (by decide)
    ⟨"totallyInvalid".data, by decide, by decide⟩ (by decide)

theorem insertAt_cons (n : Nat) (t : List Char) (c : Char) (s : List Char) :
    insertAt (n + 1) t (c :: s) = c :: insertAt n t s := by
  simp [insertAt]

theorem reinsert_shift (recs : List (Nat × List Char)) (c : Char) (cl : List Char) :
    reinsert (recs.map (fun p => (p.1 + 1, p.2))) (c :: cl) = c :: reinsert recs cl := by
  induction recs with
  | nil => rfl
  | cons p ps ih =>
    show insertAt (p.1 + 1) p.2 (reinsert (ps.map (fun p => (p.1 + 1, p.2))) (c :: cl))
      = c :: insertAt p.1 p.2 (reinsert ps cl)
    rw [ih, insertAt_cons]

theorem takeWhile_drop_eq (p : Char → Bool) (l : List Char) :
    l.takeWhile p ++ l.drop (l.takeWhile p).length = l := by
  conv_rhs => rw [← List.take_append_drop (l.takeWhile p).length l]
  congr 1
  exact List.prefix_iff_eq_take.1 (List.takeWhile_prefix p)

theorem ansiSeqMatch_append : ∀ {cs m r : List Char},
    ansiSeqMatch cs = some (m, r) → m ++ r = cs := by
  intro cs m r h
  unfold ansiSeqMatch at h
  split at h
  · split at h
    · rename_i e rest he
      subst he
      split at h
      · rename_i r2
        dsimp only at h
        split at h
        · rename_i f r5 hr4
          split at h
          · rcases Prod.mk.inj (Option.some.inj h) with ⟨hm, hr⟩
            subst hm
            subst hr
            have h1 : r2.takeWhile isParamByte
                ++ r2.drop (r2.takeWhile isParamByte).length = r2 :=
              takeWhile_drop_eq isParamByte r2
            have h2 : (r2.drop (r2.takeWhile isParamByte).length).takeWhile isInterByte
                ++ (f :: r5)
                = r2.drop (r2.takeWhile isParamByte).length := by
              rw [← hr4]
              exact takeWhile_drop_eq isInterByte _
            calc (escCh :: '[' :: (r2.takeWhile isParamByte
                  ++ ((r2.drop (r2.takeWhile isParamByte).length).takeWhile isInterByte)
                  ++ [f])) ++ r5
                = escCh :: '[' :: (r2.takeWhile isParamByte
                  ++ (((r2.drop (r2.takeWhile isParamByte).length).takeWhile isInterByte)
                  ++ (f :: r5))) := by simp
              _ = escCh :: '[' :: r2 := by rw [h2, h1]
          · exact absurd h (by simp)
        · exact absurd h (by simp)
      · rename_i c r2
        split at h
        · rcases Prod.mk.inj (Option.some.inj h) with ⟨hm, hr⟩
          subst hm
          subst hr
          rfl
        · exact absurd h (by simp)
      · exact absurd h (by simp)
    · exact absurd h (by simp)
  · exact absurd h (by simp)

theorem remScan_reinsert : ∀ (f : Nat) (cs : List Char),
    reinsert (remScan f cs).2 (remScan f cs).1 = cs := by
  intro f
  induction f with
  | zero => intro cs; cases cs <;> rfl
  | succ f ih =>
    intro cs
    cases cs with
    | nil => rfl
    | cons c rest =>
      cases hm : ansiSeqMatch (c :: rest) with
      | some p =>
        obtain ⟨m, r⟩ := p
        have hstep : remScan (f + 1) (c :: rest)
            = ((remScan f r).1, (0, m) :: (remScan f r).2) := by
          show (match ansiSeqMatch (c :: rest) with
            | some (m, r) => ((remScan f r).1, (0, m) :: (remScan f r).2)
            | none => (c :: (remScan f rest).1,
                (remScan f rest).2.map (fun q : Nat × List Char => (q.1 + 1, q.2)))) = _
          rw [hm]
        rw [hstep]
        show insertAt 0 m (reinsert (remScan f r).2 (remScan f r).1) = c :: rest
        rw [ih r]
        show m ++ r = c :: rest
        exact ansiSeqMatch_append hm
      | none =>
        have hstep : remScan (f + 1) (c :: rest)
            = (c :: (remScan f rest).1,
                (remScan f rest).2.map (fun p => (p.1 + 1, p.2))) := by
          show (match ansiSeqMatch (c :: rest) with
            | some (m, r) => ((remScan f r).1, (0, m) :: (remScan f r).2)
            | none => (c :: (remScan f rest).1,
                (remScan f rest).2.map (fun q : Nat × List Char => (q.1 + 1, q.2)))) = _
          rw [hm]
        rw [hstep]
        show reinsert ((remScan f rest).2.map (fun p => (p.1 + 1, p.2)))
          (c :: (remScan f rest).1) = c :: rest
        rw [reinsert_shift, ih rest]

/-- C9: removal records of `remove_ansi` carry offsets into the cleaned
string, and reinserting every removed sequence at its recorded position
reconstructs the input exactly (stated for every fuel and input);
concretely, `remove("ab[red]cd[_]ef", get_removals=True)` yields
`"abcdef"` with the red sequence recorded at 2 and the total reset at 4,
and reinsertion rebuilds the compiled ANSI string. -/
theorem c9 :
    (∀ (f : Nat) (cs : List Char), reinsert (remScan f cs).2 (remScan f cs).1 = cs)
    ∧ removeWithRemovals "ab[red]cd[_]ef".data none =
        .ok ("abcdef".data, [(2, seq1 31), (4, seq1 0)])
    ∧ toAnsi "ab[red]cd[_]ef".data none 20 =
        .ok ("ab".data ++ seq1 31 ++ "cd".data ++ seq1 0 ++ "ef".data)
    ∧ reinsert [(2, seq1 31), (4, seq1 0)] "abcdef".data =
        "ab".data ++ seq1 31 ++ "cd".data ++ seq1 0 ++ "ef".data := by
  refine ⟨remScan_reinsert, by decide, by decide, by decide⟩

end Xulbux

namespace Xulbux

/-- C2: configuration- versus content-error behaviour of the drivers.
An out-of-range `brightness_steps` raises for every input, as specified;
but a `default_color` raises whenever it is present at all — also for
perfectly valid colors — because `_validate_default_color` passes
`allow_alpha` positionally to a keyword-only parameter; with no default
color and valid brightness, all three drivers return normally on every
content string. -/
theorem c2 :
    (∀ (s : List Char) (dc : Option ColorArg) (bs : Nat), ¬ (0 < bs ∧ bs ≤ 100) →
      toAnsi s dc bs =
        .error "The 'brightness_steps' parameter must be between 1 and 100.")
    ∧ (∀ (s : List Char) (ca : ColorArg) (bs : Nat), 0 < bs → bs ≤ 100 →
      toAnsi s (some ca) bs =
        .error "TypeError: is_valid_hexa() takes 2 positional arguments but 3 were given")
    ∧ (∀ (s : List Char) (ca : ColorArg) (ec : Char),
      escape s (some ca) ec =
        .error "TypeError: is_valid_hexa() takes 2 positional arguments but 3 were given")
    ∧ (∀ (s : List Char) (ca : ColorArg),
      removeWithRemovals s (some ca) =
        .error "TypeError: is_valid_hexa() takes 2 positional arguments but 3 were given")
    ∧ (∀ (s : List Char) (bs : Nat), 0 < bs → bs ≤ 100 → (toAnsi s none bs).isOk = true)
    ∧ (∀ (s : List Char) (ec : Char), (escape s none ec).isOk = true)
    ∧ (∀ (s : List Char), (removeWithRemovals s none).isOk = true) := by
  refine ⟨toAnsi_bad_brightness, toAnsi_some_err, escape_some_err,
    removeWithRemovals_some_err, ?_, ?_, ?_⟩
  · intro s bs h1 h2
    rcases toAnsi_none_ok s bs h1 h2 with ⟨v, hv⟩
    rw [hv]
    rfl
  · intro s ec
    rcases escape_none_ok s ec with ⟨v, hv⟩
    rw [hv]
    rfl
  · intro s
    rcases removeWithRemovals_none_ok s with ⟨v, hv⟩
    rw [hv]
    rfl

theorem c2_witness :
    toAnsi "x".data none 0 =
      .error "The 'brightness_steps' parameter must be between 1 and 100."
    ∧ toAnsi "x".data (some (ColorArg.rgb3 187 204 170)) 20 =
      .error "TypeError: is_valid_hexa() takes 2 positional arguments but 3 were given"
    ∧ escape "x".data (some (ColorArg.rgb3 187 204 170)) '/' =
      .error "TypeError: is_valid_hexa() takes 2 positional arguments but 3 were given"
    ∧ removeWithRemovals "x".data (some (ColorArg.rgb3 187 204 170)) =
      .error "TypeError: is_valid_hexa() takes 2 positional arguments but 3 were given"
    ∧ (toAnsi "[bold|?]x".data none 20).isOk = true
    ∧ (escape "[u](y)".data none '/').isOk = true
    ∧ (removeWithRemovals "[red]z".data none).isOk = true :=
  ⟨c2.1 "x".data none 0 (by omega),
   c2.2.1 "x".data (ColorArg.rgb3 187 204 170) 20 (by omega) (by omega),
   c2.2.2.1 "x".data (ColorArg.rgb3 187 204 170) '/',
   c2.2.2.2.1 "x".data (ColorArg.rgb3 187 204 170),
   c2.2.2.2.2.1 "[bold|?]x".data 20 (by omega) (by omega),
   c2.2.2.2.2.2.1 "[u](y)".data '/',
   c2.2.2.2.2.2.2 "[red]z".data⟩

theorem c2_cex :
    toAnsi "x".data (some (ColorArg.rgb3 255 0 0)) 20 =
      .error "TypeError: is_valid_hexa() takes 2 positional arguments but 3 were given" := by
  rfl

end Xulbux

namespace Xulbux

/-- C6: the lighten and darken modifiers shift the default color's HSL
lightness by the absolute amount `n × brightness_steps` (clamped to
[0,100] afterwards), not by the spec's relative
`p/100 × (100 − L)` / `p/100 × L`; the shifted color is emitted as an SGR
set-RGB sequence.  Stated for percentages up to 100 (larger ones raise,
see C7). -/
theorem c6 (dc : Rgba) (k : List Char) (bs n : Nat)
    (hw : hasDefaultWord k = false) (hb : n * bs ≤ 100) :
    (parseModifier k = some (false, 'l', n) →
      defaultColorAnsi dc (some k) (some bs) =
        .ok (some (let hsl := rgbToHsl dc.r dc.g dc.b
                   let rgb := hslToRgb hsl.1 hsl.2.1 (max 0 (min 100 (hsl.2.2 + (n * bs : ℕ))))
                   seqColor rgb.1.toNat rgb.2.1.toNat rgb.2.2.toNat)))
    ∧ (parseModifier k = some (false, 'd', n) →
      defaultColorAnsi dc (some k) (some bs) =
        .ok (some (let hsl := rgbToHsl dc.r dc.g dc.b
                   let rgb := hslToRgb hsl.1 hsl.2.1 (max 0 (min 100 (hsl.2.2 - (n * bs : ℕ))))
                   seqColor rgb.1.toNat rgb.2.1.toNat rgb.2.2.toNat))) :=
  ⟨fun hm => defaultColorAnsi_lighten dc k bs n hw hm hb,
   fun hm => defaultColorAnsi_darken dc k bs n hw hm hb⟩

theorem c6_witness :
    defaultColorAnsi ⟨128, 128, 128⟩ (some ['l']) (some 20) =
      .ok (some (seqColor 178 178 178)) := by
  have h := (c6 ⟨128, 128, 128⟩ ['l'] 20 1 (by decide) (by omega)).1 (by decide)
  rw [h]
  with_unfolding_all decide

theorem c6_cex :
    defaultColorAnsi ⟨128, 128, 128⟩ (some ['d']) (some 20) =
      .ok (some (seqColor 76 76 76))
    ∧ (rgbToHsl 128 128 128).2.2 = 50
    ∧ specLightenedL 50 20 = 60
    ∧ (50 : ℚ) - 20 / 100 * 50 = 40
    ∧ (hslToRgb 0 0 60).2.2.toNat = 153
    ∧ (hslToRgb 0 0 40).2.2.toNat = 102
    ∧ defaultColorAnsi ⟨128, 128, 128⟩ (some ['l']) (some 20) ≠
        .ok (some (seqColor 153 153 153))
    ∧ defaultColorAnsi ⟨128, 128, 128⟩ (some ['d']) (some 20) ≠
        .ok (some (seqColor 102 102 102)) := by
  refine ⟨?_, ?_, ?_, ?_, ?_, ?_, ?_, ?_⟩ <;> with_unfolding_all decide

/-- C7: monotone lightening and the saturation boundary, as the code
actually behaves at `brightness_steps = 20`: the stored lightness
`modLight` is monotone in the run length and reaches 100 at run length 5,
and the emitted color follows `modLight` for run lengths up to 5 — but
from run length 6 on (percentage over 100) the modifier raises instead of
clamping. -/
theorem c7 (dc : Rgba) (n : Nat) (h1 : 1 ≤ n) :
    (n ≤ 5 →
      defaultColorAnsi dc (some (List.replicate n 'l')) (some 20) =
        .ok (some (let hsl := rgbToHsl dc.r dc.g dc.b
                   let rgb := hslToRgb hsl.1 hsl.2.1 (modLight dc n)
                   seqColor rgb.1.toNat rgb.2.1.toNat rgb.2.2.toNat)))
    ∧ modLight dc n ≤ modLight dc (n + 1)
    ∧ modLight dc 5 = 100
    ∧ (6 ≤ n →
      (defaultColorAnsi dc (some (List.replicate n 'l')) (some 20)).isOk = false) := by
  have hl0 := rgbToHsl_l_nonneg dc.r dc.g dc.b
  refine ⟨?_, ?_, ?_, ?_⟩
  · intro hn
    unfold modLight
    exact defaultColorAnsi_lighten dc _ 20 n (hasDefaultWord_replicate_l n)
      (parseModifier_replicate_l n h1) (by omega)
  · unfold modLight
    simp only [min_def, max_def]
    push_cast
    split_ifs <;> omega
  · unfold modLight
    simp only [min_def, max_def]
    push_cast
    split_ifs <;> omega
  · intro hn
    exact defaultColorAnsi_modifier_overflow dc _ 20 n 'l' false
      (hasDefaultWord_replicate_l n) (parseModifier_replicate_l n (by omega)) (by omega)

theorem c7_witness :
    defaultColorAnsi ⟨0, 0, 0⟩ (some (List.replicate 1 'l')) (some 20) =
      .ok (some (seqColor 51 51 51))
    ∧ modLight ⟨0, 0, 0⟩ 1 ≤ modLight ⟨0, 0, 0⟩ 2
    ∧ modLight ⟨0, 0, 0⟩ 5 = 100
    ∧ (defaultColorAnsi ⟨0, 0, 0⟩ (some (List.replicate 6 'l')) (some 20)).isOk = false := by
  have h := c7 ⟨0, 0, 0⟩ 1 (by omega)
  have h6 := c7 ⟨0, 0, 0⟩ 6 (by omega)
  refine ⟨?_, h.2.1, h.2.2.1, h6.2.2.2 (by omega)⟩
  have h1 := h.1 (by omega)
  rw [h1]
  with_unfolding_all decide

theorem c7_cex :
    (defaultColorAnsi ⟨128, 128, 128⟩ (some (List.replicate 6 'l')) (some 20)).isOk = false
    ∧ defaultColorAnsi ⟨128, 128, 128⟩ (some (List.replicate 5 'l')) (some 20) =
        .ok (some (seqColor 255 255 255)) := by
  constructor
  · with_unfolding_all decide
  · with_unfolding_all decide

end Xulbux

namespace Xulbux

/-- C3: escaping is a no-op on already-escaped directives and fixes simple
outputs, but `escape` is not idempotent in general: dropping an empty
auto-reset span can shift the span boundaries of the next pass, exposing a
nested directive that the second pass escapes.  The string
`[q]()([a[b]c)d]` escapes to `[q]([a[b]c)d]`, which escapes further to
`[q]([a[/b]c)d]`. -/
theorem c3 :
    escape "[q]()([a[b]c)d]".data none '/' = .ok "[q]([a[b]c)d]".data
    ∧ escape "[q]([a[b]c)d]".data none '/' = .ok "[q]([a[/b]c)d]".data
    ∧ ("[q]([a[/b]c)d]".data : List Char) ≠ "[q]([a[b]c)d]".data
    ∧ escape "[u]".data none '/' = .ok "[/u]".data
    ∧ escape "[/u]".data none '/' = .ok "[/u]".data
    ∧ escape "[/u](x)".data none '/' = .ok "[/u](x)".data := by
  refine ⟨by decide, by decide, by decide, by decide, by decide, by decide⟩

theorem c3_cex :
    ∃ s t : List Char, escape s none '/' = .ok t ∧ escape t none '/' ≠ .ok t := by
  refine ⟨"[q]()([a[b]c)d]".data, "[q]([a[b]c)d]".data, by decide, by decide⟩

end Xulbux
